import Mathlib

/-!
Verification development for the transactional state engine of `ref-fvm`:
the persistent HAMT (`ipld/hamt/src/hamt.rs`), the history map, the actor
caches and the state tree (`fvm/src/state_tree.rs`).

The embedding is shallow and executable:

* Machine integers (`u64` actor ids, nonces, balances) become `Nat`; none of
  the claims involves wrap-around behaviour.
* Content addressing is modelled by letting a CID stand for the (canonically
  serialised) content it names: `put_cbor` is injective and deterministic, so
  block identity and block content are in bijection.  Equality of modelled
  CIDs therefore coincides with equality of real CIDs.
* Fallible Rust functions returning `Result<T>` become `Except` values;
  Rust methods that mutate `&mut self` and return `Result<T>` become Lean
  functions returning a pair of the `Except` result and the updated state
  (a failing call can still leave behind the partial mutations it made, just
  as in the source).
* The HAMT node implementation (`node.rs`) and the init-actor module are not
  part of the provided sources; the definitions that stand in for them are
  marked `Modelled from the spec:` and follow the specification text.
-/

/-- Error kind surfaced by the HAMT.  Of the error variants in the source
(`CidNotFound`, `MaxDepth`, serialisation and blockstore errors) only
`MaxDepth` is reachable for trees that are built in memory from an empty
root, which is the situation all claims are about. -/
inductive HamtErrM : Type where
  | maxDepth : HamtErrM
deriving DecidableEq, Repr

/-- Recoverable syscall error numbers used by the state tree. -/
inductive ErrNoM : Type where
  | readOnly : ErrNoM
deriving DecidableEq, Repr

/-- `ExecutionError` from the kernel: fatal errors abort the message,
syscall errors are recoverable and observable by actor code. -/
inductive ExecErrM : Type where
  | fatal (msg : String) : ExecErrM
  | syscall (e : ErrNoM) (msg : String) : ExecErrM
deriving DecidableEq, Repr

/-- A recoverable error is a syscall error, never a fatal one. -/
def ExecErrM.recoverable : ExecErrM → Bool
  | .fatal _ => false
  | .syscall _ _ => true

/-! ## Sorted key/value lists

HAMT leaf buckets keep their entries sorted by key (the source requires
`K: PartialOrd` and inserts at the binary-search position).  Keys are the
opaque byte strings of the source, modelled as `Nat` with its order. -/
section KV

variable {V : Type}

/-- Lookup in a key/value list (first match). -/
def lookupKV (k : Nat) : List (Nat × V) → Option V
  | [] => none
  | e :: t => if e.1 = k then some e.2 else lookupKV k t

/-- Ordered insert into a key-sorted list, replacing an existing binding. -/
def insertKV (k : Nat) (v : V) : List (Nat × V) → List (Nat × V)
  | [] => [(k, v)]
  | e :: t =>
    if k < e.1 then (k, v) :: e :: t
    else if k = e.1 then (k, v) :: t
    else e :: insertKV k v t

/-- Remove the binding for `k`, if present. -/
def eraseKV (k : Nat) : List (Nat × V) → List (Nat × V)
  | [] => []
  | e :: t => if e.1 = k then t else e :: eraseKV k t

/-- Strict key order between entries; buckets and model maps are
`List.Pairwise kvLt` sorted, which makes them canonical representatives of
their finite maps. -/
def kvLt (a b : Nat × V) : Prop := a.1 < b.1

instance (a b : Nat × V) : Decidable (kvLt a b) :=
  inferInstanceAs (Decidable (a.1 < b.1))

/-- Insertion sort by key; used when `delete` merges the buckets of a
shrinking node back into a single bucket. -/
def sortKV (l : List (Nat × V)) : List (Nat × V) :=
  l.foldr (fun e acc => insertKV e.1 e.2 acc) []

end KV

/-! ## HAMT nodes

`Modelled from the spec:` the node implementation (`node.rs`) is not among
the provided sources; the following definitions model it from the
specification (spec sections 3 and 4.1): a node has `2^w` logical slots
(bitmap plus dense child array, represented here as a list of optional
pointers of length `slots`); a pointer is either a leaf bucket of up to
`bucketCap` key/value pairs sharing a hash prefix, or a child node;
insertion selects a slot from the next hash chunk at the node's depth,
bucket overflow re-hashes every entry at depth+1 and distributes them, and
deletion collapses shrunken subtrees back into leaf buckets so that the tree
stays in canonical form; when the hash runs out of chunks before collisions
resolve the operation fails with `MaxDepth`.  Building from an empty root in
memory never encounters an unresolved `Link` pointer, so the `Link`/
`Resolved` distinction of the lazily loaded tree does not appear. -/
/-- Parameters of a HAMT (`Config` in the source): number of logical slots
per node (`2^bit_width`), leaf bucket capacity, the hash function presented
as its sequence of `w`-bit chunks, and how many chunks the hash yields
(for Sha-256 at bit width `w`, `⌈256/w⌉`). -/
structure HamtConfig : Type where
  slots : Nat
  bucketCap : Nat
  hashChunk : Nat → Nat → Nat
  chunks : Nat

/-- The slot index chosen for key `k` at depth `d`: hash chunk reduced into
the slot range. -/
def HamtConfig.ch (cfg : HamtConfig) (k d : Nat) : Nat :=
  cfg.hashChunk k d % cfg.slots

/-- Well-formedness used by the general theorems: at least one slot, room
for at least one entry per bucket, at least one hash chunk. -/
def HamtConfig.WF (cfg : HamtConfig) : Prop :=
  0 < cfg.slots ∧ 1 ≤ cfg.bucketCap ∧ 1 ≤ cfg.chunks

/-- A resolved HAMT pointer: a leaf bucket of key/value pairs, or a child
node given by its slot list. -/
inductive HPointer (V : Type) : Type where
  | bucket (entries : List (Nat × V)) : HPointer V
  | child (slots : List (Option (HPointer V))) : HPointer V

/-- A node is its list of optional slot pointers (bitmap + dense array in
the serialised form). -/
abbrev HNode (V : Type) : Type := List (Option (HPointer V))

section HamtModel

variable {V : Type}

/-- Evaluate a slot-building function on each index, propagating errors
(the shape of `mapM` over `Except`, written out for transparent proofs). -/
def canonSlots (F : Nat → Except HamtErrM (Option (HPointer V))) :
    List Nat → Except HamtErrM (HNode V)
  | [] => .ok []
  | j :: js =>
    match F j with
    | .error e => .error e
    | .ok p =>
      match canonSlots F js with
      | .error e => .error e
      | .ok r => .ok (p :: r)

/-- The canonical pointer holding the entries `sub` (all sharing the hash
path above depth `d`), with `fuel` hash chunks left: absent if empty, a
bucket if they fit, otherwise a node distributing the entries by their chunk
at depth `d`.  This is both the split operation of insertion (spec: "each
entry is re-hashed at depth+1 and distributed") and the canonical form that
the mutation operations preserve. -/
def canonPtr (cfg : HamtConfig) : Nat → Nat → List (Nat × V) →
    Except HamtErrM (Option (HPointer V))
  | fuel, d, sub =>
    if sub.length = 0 then .ok none
    else if sub.length ≤ cfg.bucketCap then .ok (some (.bucket sub))
    else
      match fuel with
      | 0 => .error .maxDepth
      | f + 1 =>
        match canonSlots
            (fun j => canonPtr cfg f (d + 1)
              (sub.filter (fun e => cfg.ch e.1 d == j)))
            (List.range cfg.slots) with
        | .error e => .error e
        | .ok slots => .ok (some (.child slots))

/-- Insert `k ↦ v` below a pointer whose split depth is `d`.  Returns the
new pointer, the previous value of `k` (when overwriting), and whether the
tree was modified.  `ov = false` is the `set_if_absent` mode. -/
def setPtr (cfg : HamtConfig) [DecidableEq V] : Nat → Nat →
    Option (HPointer V) → Nat → V → Bool →
    Except HamtErrM (Option (HPointer V) × Option V × Bool)
  | _, _, none, k, v, _ => .ok (some (.bucket [(k, v)]), none, true)
  | fuel, d, some (.bucket b), k, v, ov =>
    match lookupKV k b with
    | some old =>
      if ov then
        if old = v then .ok (some (.bucket b), some old, false)
        else .ok (some (.bucket (insertKV k v b)), some old, true)
      else .ok (some (.bucket b), none, false)
    | none =>
      if b.length < cfg.bucketCap then
        .ok (some (.bucket (insertKV k v b)), none, true)
      else
        match canonPtr cfg fuel d (insertKV k v b) with
        | .error e => .error e
        | .ok p => .ok (p, none, true)
  | fuel, d, some (.child slots), k, v, ov =>
    match fuel with
    | 0 => .error .maxDepth
    | f + 1 =>
      match setPtr cfg f (d + 1) (slots.getD (cfg.ch k d) none) k v ov with
      | .error e => .error e
      | .ok (p2, old, m) =>
        .ok (some (.child (slots.set (cfg.ch k d) p2)), old, m)

/-- Collect the buckets of a slot list, failing if any pointer is a child
node. -/
def bucketsOnly : HNode V → Option (List (List (Nat × V)))
  | [] => some []
  | none :: rest => bucketsOnly rest
  | some (.bucket b) :: rest => (bucketsOnly rest).map (fun bs => b :: bs)
  | some (.child _) :: _ => none

/-- Shrink a node after a removal (the `clean` step of delete): a node left
with a single bucket collapses into it, and a node whose buckets jointly fit
into one bucket merges them (sorted by key).  Otherwise the node stays. -/
def cleanSlots (cfg : HamtConfig) (slots : HNode V) : Option (HPointer V) :=
  match slots.filterMap id with
  | [] => none
  | [.bucket b] => some (.bucket b)
  | _ =>
    match bucketsOnly slots with
    | some bs =>
      if (bs.map List.length).sum ≤ cfg.bucketCap then
        some (.bucket (sortKV bs.flatten))
      else some (.child slots)
    | none => some (.child slots)

/-- Remove key `k` below a pointer whose split depth is `d`.  Returns the
new pointer and the removed entry, if any. -/
def delPtr (cfg : HamtConfig) : Nat → Nat → Option (HPointer V) → Nat →
    Except HamtErrM (Option (HPointer V) × Option (Nat × V))
  | _, _, none, _ => .ok (none, none)
  | _, _, some (.bucket b), k =>
    match lookupKV k b with
    | none => .ok (some (.bucket b), none)
    | some v =>
      .ok (if (eraseKV k b).length = 0 then none
           else some (.bucket (eraseKV k b)), some (k, v))
  | fuel, d, some (.child slots), k =>
    match fuel with
    | 0 => .error .maxDepth
    | f + 1 =>
      match delPtr cfg f (d + 1) (slots.getD (cfg.ch k d) none) k with
      | .error e => .error e
      | .ok (p2, removed) =>
        match removed with
        | none => .ok (some (.child slots), none)
        | some kv => .ok (cleanSlots cfg (slots.set (cfg.ch k d) p2), some kv)

/-- Lookup below a pointer whose split depth is `d`. -/
def getPtr (cfg : HamtConfig) : Nat → Nat → Option (HPointer V) → Nat →
    Except HamtErrM (Option V)
  | _, _, none, _ => .ok none
  | _, _, some (.bucket b), k => .ok (lookupKV k b)
  | fuel, d, some (.child slots), k =>
    match fuel with
    | 0 => .error .maxDepth
    | f + 1 => getPtr cfg f (d + 1) (slots.getD (cfg.ch k d) none) k

/-- The empty root node (`Node::default()`). -/
def emptyRoot (cfg : HamtConfig) : HNode V := List.replicate cfg.slots none

/-- Root-level set: the root is always a node; chunk 0 picks its slot and
the slot pointer splits at depth 1. -/
def rootSet (cfg : HamtConfig) [DecidableEq V] (root : HNode V) (k : Nat)
    (v : V) (ov : Bool) :
    Except HamtErrM (HNode V × Option V × Bool) :=
  match setPtr cfg (cfg.chunks - 1) 1 (root.getD (cfg.ch k 0) none) k v ov with
  | .error e => .error e
  | .ok (p2, old, m) => .ok (root.set (cfg.ch k 0) p2, old, m)

/-- Root-level delete; the root node itself is never cleaned. -/
def rootDel (cfg : HamtConfig) (root : HNode V) (k : Nat) :
    Except HamtErrM (HNode V × Option (Nat × V)) :=
  match delPtr cfg (cfg.chunks - 1) 1 (root.getD (cfg.ch k 0) none) k with
  | .error e => .error e
  | .ok (p2, removed) =>
    match removed with
    | none => .ok (root, none)
    | some kv => .ok (root.set (cfg.ch k 0) p2, some kv)

/-- Root-level lookup. -/
def rootGet (cfg : HamtConfig) (root : HNode V) (k : Nat) :
    Except HamtErrM (Option V) :=
  getPtr cfg (cfg.chunks - 1) 1 (root.getD (cfg.ch k 0) none) k

/-- The canonical root node of a key/value map. -/
def canonRoot (cfg : HamtConfig) (m : List (Nat × V)) :
    Except HamtErrM (HNode V) :=
  canonSlots
    (fun j => canonPtr cfg (cfg.chunks - 1) 1
      (m.filter (fun e => cfg.ch e.1 0 == j)))
    (List.range cfg.slots)

end HamtModel

section CleanLemmas

variable {V : Type}

/-- Extract the bucket of a pointer, if it is one. -/
def bucketOf : Option (HPointer V) → Option (List (Nat × V))
  | some (.bucket b) => some b
  | _ => none

end CleanLemmas

/-! ## The Hamt facade (`hamt.rs`)

Translated from `ipld/hamt/src/hamt.rs`.  A CID is modelled by the block
content it names (content addressing is injective and deterministic), so
the CID that `flush` computes for the root is the root node itself, and the
block-store write log is a list of serialised nodes.  `Node::flush` (in the
absent `node.rs`) is `Modelled from the spec:` a post-order write of the
tree's nodes; per-node dirty bits are not tracked, which is exact for trees
built in memory from an empty root (every node is dirty until the first
`flush`, and a repeated `flush` short-circuits before reaching the node
layer). -/
/-- The HAMT handle: root node and the memoised CID of the last flush
(`flushed_cid`).  The block store it owns is threaded explicitly where
needed. -/
structure Hamt (V : Type) : Type where
  root : HNode V
  flushedCid : Option (HNode V)

section HamtFacade

variable {V : Type}

/-- `Hamt::new_with_config`: empty root, no flushed CID. -/
def Hamt.new (cfg : HamtConfig) : Hamt V := ⟨emptyRoot cfg, none⟩

/-- `Hamt::set`: insert or overwrite; `flushed_cid` is cleared only when
the tree was modified. -/
def Hamt.set (cfg : HamtConfig) [DecidableEq V] (h : Hamt V) (k : Nat)
    (v : V) : Except HamtErrM (Hamt V × Option V) :=
  match rootSet cfg h.root k v true with
  | .error e => .error e
  | .ok (r, old, modified) =>
    .ok ({ root := r,
           flushedCid := if modified then none else h.flushedCid }, old)

/-- `Hamt::set_if_absent`: insert only when the key is new; `flushed_cid`
is cleared only when an insert happened.  Returns whether it inserted. -/
def Hamt.setIfAbsent (cfg : HamtConfig) [DecidableEq V] (h : Hamt V)
    (k : Nat) (v : V) : Except HamtErrM (Hamt V × Bool) :=
  match rootSet cfg h.root k v false with
  | .error e => .error e
  | .ok (r, _, inserted) =>
    .ok ({ root := r,
           flushedCid := if inserted then none else h.flushedCid }, inserted)

/-- `Hamt::get`. -/
def Hamt.get (cfg : HamtConfig) (h : Hamt V) (k : Nat) :
    Except HamtErrM (Option V) :=
  rootGet cfg h.root k

/-- `Hamt::delete`: remove a key; `flushed_cid` is cleared only when an
entry was removed. -/
def Hamt.delete (cfg : HamtConfig) (h : Hamt V) (k : Nat) :
    Except HamtErrM (Hamt V × Option (Nat × V)) :=
  match rootDel cfg h.root k with
  | .error e => .error e
  | .ok (r, removed) =>
    .ok ({ root := r,
           flushedCid := if removed.isSome then none else h.flushedCid },
         removed)

/-- The nodes reachable below a pointer, in post-order (the order in which
`Node::flush` serialises and stores them). -/
def ptrNodes (fuel : Nat) : Option (HPointer V) → List (HNode V)
  | none => []
  | some (.bucket _) => []
  | some (.child s) =>
    match fuel with
    | 0 => []
    | f + 1 => (s.map (ptrNodes f)).flatten ++ [s]

/-- The blocks `flush` writes for a fully dirty tree: every child node in
post-order, then the root. -/
def rootWrites (cfg : HamtConfig) (root : HNode V) : List (HNode V) :=
  (root.map (ptrNodes cfg.chunks)).flatten ++ [root]

/-- `Hamt::flush`: return the cached `flushed_cid` if present (writing
nothing); otherwise write the dirty nodes and the root, remember the root
CID, and return it. -/
def Hamt.flush (cfg : HamtConfig) (h : Hamt V) (log : List (HNode V)) :
    HNode V × Hamt V × List (HNode V) :=
  match h.flushedCid with
  | some c => (c, h, log)
  | none =>
    (h.root, { h with flushedCid := some h.root },
     log ++ rootWrites cfg h.root)

/-- A mutation of the HAMT: an insert (`set`) or a removal (`delete`). -/
inductive HOp (V : Type) : Type where
  | set (k : Nat) (v : V) : HOp V
  | del (k : Nat) : HOp V

/-- Run one mutation, keeping only the updated tree. -/
def applyHOp (cfg : HamtConfig) [DecidableEq V] (h : Hamt V) :
    HOp V → Except HamtErrM (Hamt V)
  | .set k v =>
    match Hamt.set cfg h k v with
    | .error e => .error e
    | .ok (h2, _) => .ok h2
  | .del k =>
    match Hamt.delete cfg h k with
    | .error e => .error e
    | .ok (h2, _) => .ok h2

/-- Run a sequence of mutations. -/
def applyHOps (cfg : HamtConfig) [DecidableEq V] :
    List (HOp V) → Hamt V → Except HamtErrM (Hamt V)
  | [], h => .ok h
  | op :: ops, h =>
    match applyHOp cfg h op with
    | .error e => .error e
    | .ok h2 => applyHOps cfg ops h2

/-- The key/value map described by a sequence of mutations, as a key-sorted
association list. -/
def modelHOps : List (HOp V) → List (Nat × V) → List (Nat × V)
  | [], m => m
  | .set k v :: ops, m => modelHOps ops (insertKV k v m)
  | .del k :: ops, m => modelHOps ops (eraseKV k m)

end HamtFacade

/-- A small concrete configuration for witnesses: 2 slots per node, bucket
capacity 1, the hash of a key being its base-2 digits, 3 chunks. -/
def cfgW : HamtConfig := ⟨2, 1, fun k d => k / 2 ^ d, 3⟩

/-- Witness mutation sequence: insert 1 then 3. -/
def opsW1 : List (HOp Nat) := [.set 1 10, .set 3 30]

/-- Witness mutation sequence: insert 3 then 1. -/
def opsW2 : List (HOp Nat) := [.set 3 30, .set 1 10]

/-- The tree both witness sequences build: keys 1 and 3 collide in slot 1
at depth 0 and split into a child node at depth 1. -/
def treeW : Hamt Nat :=
  ⟨[none, some (.child [some (.bucket [(1, 10)]),
    some (.bucket [(3, 30)])])], none⟩

/-! ## The state tree (`fvm/src/state_tree.rs`)

The caches are `HistoryMap`s; the Rust `HashMap` inside them is modelled by
an association list whose `insert` replaces in place (first occurrence) or
appends, which realises the same key → value function.  Addresses of
protocol `ID` carry their actor id; all other protocols are opaque to the
engine and collapsed into one tagged payload.  `Address::new_id(id)
.to_bytes()` is an injective encoding of the id into the HAMT key space and
is modelled by the id itself. -/
/-- An address: protocol `ID`, or any non-ID protocol (opaque payload). -/
inductive AddressM : Type where
  | id (n : Nat) : AddressM
  | key (n : Nat) : AddressM
deriving DecidableEq, Repr

/-- Modelled from the spec: the init actor (module `init_actor`, not
among the provided sources).  Its state is an address map (a sub-HAMT,
modelled by the map it denotes) together with the next id counter;
ids are assigned sequentially. -/
structure InitStateM : Type where
  addressMap : List (AddressM × Nat)
  nextId : Nat
deriving DecidableEq, Repr

/-- A CID stands for the content it names (content addressing is injective
and deterministic): the info CID of the empty `StateInfo0` object, the CID
of a serialised init-actor state, or an opaque digest. -/
inductive CidM : Type where
  | raw (n : Nat) : CidM
  | stateInfo : CidM
  | initState (s : InitStateM) : CidM
deriving DecidableEq, Repr

/-- `ActorState`: code CID, state CID, nonce, balance and the optional
delegated address. -/
structure ActorStateM : Type where
  code : CidM
  state : CidM
  sequence : Nat
  balance : Nat
  delegatedAddress : Option AddressM
deriving DecidableEq, Repr

/-- `StateTreeVersion`. -/
inductive VersionM : Type where
  | v0 | v1 | v2 | v3 | v4 | v5
deriving DecidableEq, Repr

/-- A versioned state root `{version, info, actors}`. -/
structure StateRootM : Type where
  version : VersionM
  info : CidM
  actors : HNode ActorStateM

/-- A block written to the block store by the state tree or its HAMT. -/
inductive BlockW : Type where
  | stateInfoBlock : BlockW
  | initMapBlock (m : List (AddressM × Nat)) : BlockW
  | initStateBlock (s : InitStateM) : BlockW
  | hamtNodeBlock (n : HNode ActorStateM) : BlockW
  | stateRootBlock (sr : StateRootM) : BlockW

/-- The CID returned by `StateTree::flush`: the bare HAMT root for the
legacy V0 branch, or the wrapped state root. -/
inductive STCid : Type where
  | inner (root : HNode ActorStateM) : STCid
  | wrapped (sr : StateRootM) : STCid

section AList

variable {K A : Type} [DecidableEq K]

/-- Lookup in an association list (the `HashMap::get` of the caches). -/
def lookupA (k : K) : List (K × A) → Option A
  | [] => none
  | e :: t => if e.1 = k then some e.2 else lookupA k t

/-- Insert: replace the binding in place, or append a new one. -/
def insertA (k : K) (v : A) : List (K × A) → List (K × A)
  | [] => [(k, v)]
  | e :: t => if e.1 = k then (k, v) :: t else e :: insertA k v t

/-- Remove the first binding of `k`, if any. -/
def removeA (k : K) : List (K × A) → List (K × A)
  | [] => []
  | e :: t => if e.1 = k then t else e :: removeA k t

end AList

/-- `HistoryMap`: a map with an append-only undo log. -/
structure HistoryMap (K A : Type) : Type where
  map : List (K × A)
  history : List (K × Option A)

section HistoryMapOps

variable {K A E : Type} [DecidableEq K]

/-- The empty history map (`Default::default()`). -/
def HistoryMap.empty : HistoryMap K A := ⟨[], []⟩

/-- `HistoryMap::insert`: store the pair and push the previous value. -/
def HistoryMap.insert (m : HistoryMap K A) (k : K) (v : A) :
    HistoryMap K A :=
  { map := insertA k v m.map, history := m.history ++ [(k, lookupA k m.map)] }

/-- `HistoryMap::get`. -/
def HistoryMap.get (m : HistoryMap K A) (k : K) : Option A :=
  lookupA k m.map

/-- `HistoryMap::get_or_try_insert_with`: on a miss evaluate `f`; if it
succeeds store the value and record the insertion, otherwise change
nothing. -/
def HistoryMap.getOrTryInsertWith (m : HistoryMap K A) (k : K)
    (f : Unit → Except E A) : Except E (A × HistoryMap K A) :=
  match lookupA k m.map with
  | some v => .ok (v, m)
  | none =>
    match f () with
    | .error e => .error e
    | .ok v =>
      .ok (v, { map := insertA k v m.map,
                history := m.history ++ [(k, none)] })

/-- Reverse one undo record: restore the previous value, or remove the key
if there was none. -/
def undoOne (e : K × Option A) (map : List (K × A)) : List (K × A) :=
  match e.2 with
  | some v => insertA e.1 v map
  | none => removeA e.1 map

/-- `HistoryMap::rollback(height)`: pop the undo records past `height` in
reverse order and reverse each (`drain(height..).rev()` as a fold). -/
def HistoryMap.rollback (m : HistoryMap K A) (height : Nat) :
    HistoryMap K A :=
  if m.history.length ≤ height then m
  else { map := (m.history.drop height).foldr undoOne m.map,
         history := m.history.take height }

/-- `HistoryMap::history_len`. -/
def HistoryMap.historyLen (m : HistoryMap K A) : Nat := m.history.length

/-- `HistoryMap::discard_history`. -/
def HistoryMap.discardHistory (m : HistoryMap K A) : HistoryMap K A :=
  { m with history := [] }

/-- The map mutations the state tree performs on a cache: an
unconditional insert, or the insert-if-absent of
`get_or_try_insert_with`. -/
inductive HMOp (K A : Type) : Type where
  | ins (k : K) (v : A) : HMOp K A
  | tryIns (k : K) (v : A) : HMOp K A

/-- Apply one cache mutation. -/
def applyHMOp (m : HistoryMap K A) : HMOp K A → HistoryMap K A
  | .ins k v => m.insert k v
  | .tryIns k v =>
    match lookupA k m.map with
    | some _ => m
    | none =>
      { map := insertA k v m.map, history := m.history ++ [(k, none)] }

/-- Apply a list of cache mutations in order. -/
def applyHMOps : List (HMOp K A) → HistoryMap K A → HistoryMap K A
  | [], m => m
  | op :: ops, m => applyHMOps ops (applyHMOp m op)

end HistoryMapOps

/-- An entry of the actor cache: the dirty bit and the cached actor
(`None` when absent or deleted). -/
structure ActorCacheEntry : Type where
  dirty : Bool
  actor : Option ActorStateM
deriving DecidableEq, Repr

/-- A snapshot layer: the history heights of both caches at
`begin_transaction`. -/
structure StateSnapLayer : Type where
  actorCacheHeight : Nat
  resolveCacheHeight : Nat
deriving DecidableEq, Repr

/-- The state tree: HAMT, version, info CID, both caches, snapshot layers,
read-only counter, and the log of blocks written to the store. -/
structure StateTreeM : Type where
  hamt : Hamt ActorStateM
  version : VersionM
  info : Option CidM
  actorCache : HistoryMap Nat ActorCacheEntry
  resolveCache : HistoryMap AddressM Nat
  layers : List StateSnapLayer
  readOnlyLayers : Nat
  storeLog : List BlockW

/-- The HAMT key of an ID address (`Address::new_id(id).to_bytes()`,
injective, modelled by the id itself). -/
def addrKey (id : Nat) : Nat := id

/-- `INIT_ACTOR_ID`. -/
def INIT_ACTOR_ID : Nat := 1

/-- `is_read_only`. -/
def StateTreeM.isReadOnly (st : StateTreeM) : Bool :=
  decide (0 < st.readOnlyLayers)

/-- `in_transaction`. -/
def StateTreeM.inTransaction (st : StateTreeM) : Bool :=
  !(st.readOnlyLayers == 0 && st.layers.isEmpty)

/-- `assert_writable`. -/
def assertWritable (st : StateTreeM) : Except ExecErrM Unit :=
  if st.isReadOnly then
    .error (.syscall .readOnly "cannot mutate state while in read-only mode")
  else .ok ()

/-- `StateTree::new`: versions below V5 are fatal; V5 stores the empty
`StateInfo0` object and starts with an empty HAMT and caches. -/
def stateTreeNew (cfg : HamtConfig) (version : VersionM) :
    Except ExecErrM StateTreeM :=
  match version with
  | .v5 =>
    .ok { hamt := Hamt.new cfg, version := .v5, info := some .stateInfo,
          actorCache := HistoryMap.empty, resolveCache := HistoryMap.empty,
          layers := [], readOnlyLayers := 0,
          storeLog := [.stateInfoBlock] }
  | _ => .error (.fatal "unsupported state tree version")

/-- `StateTree::get_actor`: consult the cache, on a miss look the ID
address up in the HAMT and cache the (clean) result; HAMT errors are
fatal. -/
def getActorOp (cfg : HamtConfig) (st : StateTreeM) (id : Nat) :
    Except ExecErrM (Option ActorStateM) × StateTreeM :=
  match HistoryMap.getOrTryInsertWith st.actorCache id (fun _ =>
    match Hamt.get cfg st.hamt (addrKey id) with
    | .error _ => .error (ExecErrM.fatal "failed to lookup actor")
    | .ok v => .ok { dirty := false, actor := v }) with
  | .error e => (.error e, st)
  | .ok (entry, cache2) =>
    (.ok entry.actor, { st with actorCache := cache2 })

/-- `StateTree::set_actor`: fails with the recoverable `ReadOnly` error in
a read-only frame, otherwise inserts a dirty cache entry. -/
def setActorOp (st : StateTreeM) (id : Nat) (actor : ActorStateM) :
    Except ExecErrM Unit × StateTreeM :=
  match assertWritable st with
  | .error e => (.error e, st)
  | .ok _ =>
    (.ok (), { st with actorCache :=
      st.actorCache.insert id { actor := some actor, dirty := true } })

/-- `StateTree::delete_actor`: as `set_actor`, recording `None`. -/
def deleteActorOp (st : StateTreeM) (id : Nat) :
    Except ExecErrM Unit × StateTreeM :=
  match assertWritable st with
  | .error e => (.error e, st)
  | .ok _ =>
    (.ok (), { st with actorCache :=
      st.actorCache.insert id { dirty := true, actor := none } })

/-- Modelled from the spec: `InitActorState::resolve_address`, a lookup
in the init actor's address map. -/
def InitStateM.resolveAddress (s : InitStateM) (a : AddressM) : Option Nat :=
  lookupA a s.addressMap

/-- Modelled from the spec: `InitActorState::map_address_to_new_id` —
allocate the next id, update the address map, flush the sub-HAMT to the
store.  Returns the id, the new state and the block written. -/
def InitStateM.mapAddressToNewId (s : InitStateM) (a : AddressM) :
    Nat × InitStateM × BlockW :=
  (s.nextId,
   { addressMap := insertA a s.nextId s.addressMap, nextId := s.nextId + 1 },
   .initMapBlock (insertA a s.nextId s.addressMap))

/-- Modelled from the spec: `InitActorState::load` — get the init actor
through the tree's `get_actor`, then read its state object from the
store. -/
def initActorLoad (cfg : HamtConfig) (st : StateTreeM) :
    Except ExecErrM (InitStateM × ActorStateM) × StateTreeM :=
  match getActorOp cfg st INIT_ACTOR_ID with
  | (.error e, st1) => (.error e, st1)
  | (.ok none, st1) =>
    (.error (.fatal "init actor address could not be resolved"), st1)
  | (.ok (some a), st1) =>
    match a.state with
    | .initState s => (.ok (s, a), st1)
    | _ => (.error (.fatal "failed to load init actor state"), st1)

/-- `StateTree::lookup_id`: an ID address resolves to itself; otherwise
consult the resolve cache, then the init actor, caching a hit. -/
def lookupIdOp (cfg : HamtConfig) (st : StateTreeM) (addr : AddressM) :
    Except ExecErrM (Option Nat) × StateTreeM :=
  match addr with
  | .id n => (.ok (some n), st)
  | .key _ =>
    match lookupA addr st.resolveCache.map with
    | some i => (.ok (some i), st)
    | none =>
      match initActorLoad cfg st with
      | (.error e, st1) => (.error e, st1)
      | (.ok (s, _), st1) =>
        match s.resolveAddress addr with
        | none => (.ok none, st1)
        | some a =>
          (.ok (some a),
           { st1 with resolveCache := st1.resolveCache.insert addr a })

/-- `StateTree::register_new_address`: load the init actor, allocate the
new id (writing the updated sub-map), persist the updated init state with
`put_cbor`, then `set_actor` the init actor. -/
def registerNewAddressOp (cfg : HamtConfig) (st : StateTreeM)
    (addr : AddressM) : Except ExecErrM Nat × StateTreeM :=
  match initActorLoad cfg st with
  | (.error e, st1) => (.error e, st1)
  | (.ok (s, actor), st1) =>
    match s.mapAddressToNewId addr with
    | (newId, s2, blk) =>
      let st2 := { st1 with storeLog :=
        st1.storeLog ++ [blk, .initStateBlock s2] }
      match setActorOp st2 INIT_ACTOR_ID
        { actor with state := CidM.initState s2 } with
      | (.error e, st3) => (.error e, st3)
      | (.ok _, st3) => (.ok newId, st3)

/-- `StateTree::maybe_mutate_actor_id`: load, apply the mutation, store;
`false` when absent. -/
def maybeMutateActorOp (cfg : HamtConfig) (st : StateTreeM) (id : Nat)
    (f : ActorStateM → Except ExecErrM ActorStateM) :
    Except ExecErrM Bool × StateTreeM :=
  match getActorOp cfg st id with
  | (.error e, st1) => (.error e, st1)
  | (.ok none, st1) => (.ok false, st1)
  | (.ok (some a), st1) =>
    match f a with
    | .error e => (.error e, st1)
    | .ok a2 =>
      match setActorOp st1 id a2 with
      | (.error e, st2) => (.error e, st2)
      | (.ok _, st2) => (.ok true, st2)

/-- `StateTree::mutate_actor`: fatal when the actor does not exist. -/
def mutateActorOp (cfg : HamtConfig) (st : StateTreeM) (id : Nat)
    (f : ActorStateM → Except ExecErrM ActorStateM) :
    Except ExecErrM Unit × StateTreeM :=
  match maybeMutateActorOp cfg st id f with
  | (.error e, st1) => (.error e, st1)
  | (.ok true, st1) => (.ok (), st1)
  | (.ok false, st1) => (.error (.fatal "failed to lookup actor"), st1)

/-- `StateTree::begin_transaction`: read-only (or already read-only)
frames bump the counter, otherwise push a snapshot layer recording both
history heights. -/
def beginTransactionOp (st : StateTreeM) (readOnly : Bool) : StateTreeM :=
  if readOnly || st.isReadOnly then
    { st with readOnlyLayers := st.readOnlyLayers + 1 }
  else
    { st with layers :=
      { actorCacheHeight := st.actorCache.historyLen,
        resolveCacheHeight := st.resolveCache.historyLen } :: st.layers }

/-- After ending the outermost transaction the undo history of both caches
is discarded. -/
def endFinishOp (st : StateTreeM) : StateTreeM :=
  if st.inTransaction then st
  else { st with actorCache := st.actorCache.discardHistory,
                 resolveCache := st.resolveCache.discardHistory }

/-- `StateTree::end_transaction`: decrement the read-only counter or pop
the top layer (fatal when empty), rolling both caches back to the recorded
heights when reverting. -/
def endTransactionOp (st : StateTreeM) (revert : Bool) :
    Except ExecErrM Unit × StateTreeM :=
  if st.isReadOnly then
    (.ok (), endFinishOp { st with readOnlyLayers := st.readOnlyLayers - 1 })
  else
    match st.layers with
    | [] => (.error (.fatal "state snapshots empty"), st)
    | layer :: rest =>
      let st1 := { st with layers := rest }
      let st2 :=
        if revert then
          { st1 with
            actorCache := st1.actorCache.rollback layer.actorCacheHeight,
            resolveCache :=
              st1.resolveCache.rollback layer.resolveCacheHeight }
        else st1
      (.ok (), endFinishOp st2)

/-- The HAMT write `StateTree::flush` performs for one cache entry:
`delete` for a tombstone, `set` otherwise. -/
def hamtWriteEntry (cfg : HamtConfig) (h : Hamt ActorStateM) (id : Nat)
    (a : Option ActorStateM) : Except HamtErrM (Hamt ActorStateM) :=
  match a with
  | none =>
    match Hamt.delete cfg h (addrKey id) with
    | .error e => .error e
    | .ok (h2, _) => .ok h2
  | some s =>
    match Hamt.set cfg h (addrKey id) s with
    | .error e => .error e
    | .ok (h2, _) => .ok h2

/-- The write-through loop of `StateTree::flush` over the actor cache
(the `HashMap` iteration order is modelled by the list order): each dirty
entry's flag is cleared and its write attempted; a failing write aborts the
loop with a fatal error, leaving the partially updated cache behind. -/
def flushLoop (cfg : HamtConfig) :
    List (Nat × ActorCacheEntry) → Hamt ActorStateM →
    List (Nat × ActorCacheEntry) × Hamt ActorStateM × Option ExecErrM
  | [], h => ([], h, none)
  | (id, e) :: rest, h =>
    if e.dirty then
      match hamtWriteEntry cfg h id e.actor with
      | .error _ =>
        ((id, { e with dirty := false }) :: rest, h,
         some (.fatal "failed to write actor to the state tree"))
      | .ok h2 =>
        match flushLoop cfg rest h2 with
        | (l, h3, r) => ((id, { e with dirty := false }) :: l, h3, r)
    else
      match flushLoop cfg rest h with
      | (l, h3, r) => ((id, e) :: l, h3, r)

/-- `StateTree::flush`: fatal inside a transaction; otherwise write every
dirty cache entry through to the HAMT, flush the HAMT, and wrap the root
with the version and info CID (V0 returns the bare root). -/
def flushOp (cfg : HamtConfig) (st : StateTreeM) :
    Except ExecErrM STCid × StateTreeM :=
  if st.inTransaction then
    (.error (.fatal "cannot flush while inside of a transaction"), st)
  else
    match flushLoop cfg st.actorCache.map st.hamt with
    | (map2, hamt2, res) =>
      let st1 := { st with
        actorCache := { st.actorCache with map := map2 }, hamt := hamt2 }
      match res with
      | some e => (.error e, st1)
      | none =>
        match Hamt.flush cfg st1.hamt [] with
        | (root, hamt3, writes) =>
          let st2 := { st1 with hamt := hamt3, storeLog :=
            st1.storeLog ++ writes.map BlockW.hamtNodeBlock }
          match st2.version with
          | .v0 => (.ok (.inner root), st2)
          | _ =>
            match st2.info with
            | none =>
              (.error (.fatal "malformed state tree, version 1+ require info"),
               st2)
            | some i =>
              let sr : StateRootM :=
                { version := st2.version, actors := root, info := i }
              (.ok (.wrapped sr),
               { st2 with storeLog := st2.storeLog ++ [.stateRootBlock sr] })

/-- The observable result of `get_actor` (the value the call returns,
without the cache-population side effect). -/
def getActorView (cfg : HamtConfig) (st : StateTreeM) (id : Nat) :
    Except ExecErrM (Option ActorStateM) :=
  match lookupA id st.actorCache.map with
  | some e => .ok e.actor
  | none =>
    match Hamt.get cfg st.hamt (addrKey id) with
    | .error _ => .error (.fatal "failed to lookup actor")
    | .ok v => .ok v

/-- The observable result of `lookup_id`. -/
def lookupIdView (cfg : HamtConfig) (st : StateTreeM) (addr : AddressM) :
    Except ExecErrM (Option Nat) :=
  match addr with
  | .id n => .ok (some n)
  | .key _ =>
    match lookupA addr st.resolveCache.map with
    | some i => .ok (some i)
    | none =>
      match getActorView cfg st INIT_ACTOR_ID with
      | .error e => .error e
      | .ok none => .error (.fatal "init actor address could not be resolved")
      | .ok (some a) =>
        match a.state with
        | .initState s =>
          match s.resolveAddress addr with
          | none => .ok none
          | some x => .ok (some x)
        | _ => .error (.fatal "failed to load init actor state")

/-- Observational equality of two state trees: `get_actor` agrees on every
actor id and `lookup_id` agrees on every address. -/
def viewEq (cfg : HamtConfig) (st st2 : StateTreeM) : Prop :=
  (∀ id, getActorView cfg st id = getActorView cfg st2 id) ∧
  (∀ a, lookupIdView cfg st a = lookupIdView cfg st2 a)

/-- A mutating state-tree operation, as in claim C1: `set_actor`,
`delete_actor`, `register_new_address` or `mutate_actor`. -/
inductive MutOp : Type where
  | setA (id : Nat) (a : ActorStateM) : MutOp
  | delA (id : Nat) : MutOp
  | reg (addr : AddressM) : MutOp
  | mut (id : Nat) (f : ActorStateM → Except ExecErrM ActorStateM) : MutOp

/-- Perform one mutating operation, keeping the updated tree (a failing
operation keeps the partial mutations it made, as in the source). -/
def applyMutOp (cfg : HamtConfig) (st : StateTreeM) : MutOp → StateTreeM
  | .setA id a => (setActorOp st id a).2
  | .delA id => (deleteActorOp st id).2
  | .reg addr => (registerNewAddressOp cfg st addr).2
  | .mut id f => (mutateActorOp cfg st id f).2

/-- Perform a sequence of mutating operations. -/
def applyMutOps (cfg : HamtConfig) : List MutOp → StateTreeM → StateTreeM
  | [], st => st
  | op :: ops, st => applyMutOps cfg ops (applyMutOp cfg st op)

/-- The history map of the worked spec example:
`insert(1,"foo"); insert(2,"bar"); insert(1,"baz")`. -/
def hmW : HistoryMap Nat String :=
  ((HistoryMap.empty.insert 1 "foo").insert 2 "bar").insert 1 "baz"

/-- A fresh V5 state tree over the witness config (the tree
`StateTree::new` returns). -/
def stW0 : StateTreeM :=
  { hamt := Hamt.new cfgW, version := .v5, info := some .stateInfo,
    actorCache := HistoryMap.empty, resolveCache := HistoryMap.empty,
    layers := [], readOnlyLayers := 0, storeLog := [.stateInfoBlock] }

/-- A concrete actor state for witnesses. -/
def actorW : ActorStateM :=
  { code := .raw 7, state := .raw 8, sequence := 0, balance := 0,
    delegatedAddress := none }

/-- A state tree one (writable) transaction deep, with pending undo
history in the actor cache. -/
def stW1 : StateTreeM :=
  { stW0 with
    layers := [⟨0, 0⟩],
    actorCache := ⟨[(5, ⟨true, some actorW⟩)], [(5, none)]⟩ }

/-- A concrete transaction body: set an actor, mutate it, delete another
id, and register a new address. -/
def opsMW : List MutOp :=
  [.setA 5 actorW, .mut 5 (fun a => .ok { a with balance := 3 }),
   .delA 6, .reg (.key 9)]

/-- What `StateTree::flush`'s loop does to a processed cache entry: the
dirty flag is cleared (`entry.dirty = false;` runs before the HAMT
write). -/
def flushEnt (p : Nat × ActorCacheEntry) : Nat × ActorCacheEntry :=
  (p.1, { p.2 with dirty := false })

/-- A pathological config: two slots, bucket capacity 1, a single hash
chunk that is always 0, so a second insertion must split past the last
chunk and fails with `MaxDepth`. -/
def cfgP : HamtConfig := ⟨2, 1, fun _ _ => 0, 1⟩

/-- A second concrete actor state. -/
def actorB : ActorStateM := { actorW with sequence := 1 }

/-- A writable tree over `cfgP` whose cache holds two dirty entries; the
write-through of the second entry fails. -/
def stP : StateTreeM :=
  { hamt := Hamt.new cfgP, version := .v5, info := some .stateInfo,
    actorCache := ⟨[(1, ⟨true, some actorW⟩), (2, ⟨true, some actorB⟩)], []⟩,
    resolveCache := HistoryMap.empty, layers := [], readOnlyLayers := 0,
    storeLog := [] }

/-- The HAMT after the first entry of `stP` has been written through. -/
def hamtP1 : Hamt ActorStateM :=
  match hamtWriteEntry cfgP (Hamt.new cfgP) 1 (some actorW) with
  | .ok h2 => h2
  | .error _ => Hamt.new cfgP

/-- A concrete init actor whose state holds an empty address map and next
id 7. -/
def initActorW : ActorStateM :=
  { code := .raw 1, state := .initState ⟨[], 7⟩, sequence := 0,
    balance := 0, delegatedAddress := none }

/-- The witness HAMT holding the init actor at id 1. -/
def hamtI : Hamt ActorStateM :=
  match Hamt.set cfgW (Hamt.new cfgW) (addrKey INIT_ACTOR_ID) initActorW with
  | .ok (h2, _) => h2
  | .error _ => Hamt.new cfgW

/-- A read-only tree whose HAMT holds the init actor but whose actor cache
is empty, so `register_new_address` must fault the init actor into the
cache before failing. -/
def stI : StateTreeM :=
  { hamt := hamtI, version := .v5, info := some .stateInfo,
    actorCache := HistoryMap.empty, resolveCache := HistoryMap.empty,
    layers := [], readOnlyLayers := 1, storeLog := [] }

/-! ## Theorems -/

/-! ## Sorted key/value lists

HAMT leaf buckets keep their entries sorted by key (the source requires
`K: PartialOrd` and inserts at the binary-search position).  Keys are the
opaque byte strings of the source, modelled as `Nat` with its order. -/
section KV

variable {V : Type}

theorem mem_insertKV (k : Nat) (v : V) (l : List (Nat × V)) (b : Nat × V)
    (hb : b ∈ insertKV k v l) : b = (k, v) ∨ b ∈ l := by
  induction l with
  | nil => simpa [insertKV] using hb
  | cons e t ih =>
    by_cases h1 : k < e.1
    · simp only [insertKV, if_pos h1, List.mem_cons] at hb
      rcases hb with hb | hb | hb
      · exact Or.inl (by simp [hb])
      · exact Or.inr (by simp [hb])
      · exact Or.inr (List.mem_cons_of_mem _ hb)
    · by_cases h2 : k = e.1
      · simp only [insertKV, if_neg h1, if_pos h2, List.mem_cons] at hb
        rcases hb with hb | hb
        · exact Or.inl hb
        · exact Or.inr (List.mem_cons_of_mem _ hb)
      · simp only [insertKV, if_neg h1, if_neg h2, List.mem_cons] at hb
        rcases hb with hb | hb
        · exact Or.inr (by simp [hb])
        · rcases ih hb with hc | hc
          · exact Or.inl hc
          · exact Or.inr (List.mem_cons_of_mem _ hc)

theorem mem_eraseKV (k : Nat) (l : List (Nat × V)) (b : Nat × V)
    (hb : b ∈ eraseKV k l) : b ∈ l := by
  induction l with
  | nil => simp [eraseKV] at hb
  | cons e t ih =>
    by_cases h : e.1 = k
    · simp only [eraseKV, if_pos h] at hb
      exact List.mem_cons_of_mem _ hb
    · simp only [eraseKV, if_neg h, List.mem_cons] at hb
      rcases hb with hb | hb
      · simp [hb]
      · exact List.mem_cons_of_mem _ (ih hb)

theorem lookupKV_insertKV_self (k : Nat) (v : V) (l : List (Nat × V)) :
    lookupKV k (insertKV k v l) = some v := by
  induction l with
  | nil => simp [insertKV, lookupKV]
  | cons e t ih =>
    by_cases h1 : k < e.1
    · simp [insertKV, h1, lookupKV]
    · by_cases h2 : k = e.1
      · simp [insertKV, h1, h2, lookupKV]
      · simp only [insertKV, if_neg h1, if_neg h2, lookupKV]
        rw [if_neg (fun h => h2 h.symm), ih]

theorem lookupKV_insertKV_ne (k j : Nat) (v : V) (l : List (Nat × V))
    (hne : j ≠ k) : lookupKV j (insertKV k v l) = lookupKV j l := by
  have hkj : ¬(k = j) := fun h => hne h.symm
  induction l with
  | nil => simp [insertKV, lookupKV, hkj]
  | cons e t ih =>
    by_cases h1 : k < e.1
    · simp only [insertKV, if_pos h1, lookupKV, if_neg hkj]
    · by_cases h2 : k = e.1
      · simp only [insertKV, if_neg h1, if_pos h2, lookupKV, if_neg hkj]
        rw [← h2, if_neg hkj]
      · simp only [insertKV, if_neg h1, if_neg h2, lookupKV, ih]

theorem lookupKV_none_of_forall_gt (k : Nat) (l : List (Nat × V))
    (h : ∀ e ∈ l, k < e.1) : lookupKV k l = none := by
  induction l with
  | nil => rfl
  | cons e t ih =>
    have he : k < e.1 := h e (by simp)
    simp only [lookupKV]
    rw [if_neg (by omega)]
    exact ih (fun f hf => h f (List.mem_cons_of_mem _ hf))

theorem lookupKV_eraseKV_self (k : Nat) (l : List (Nat × V))
    (hs : l.Pairwise kvLt) : lookupKV k (eraseKV k l) = none := by
  induction l with
  | nil => simp [eraseKV, lookupKV]
  | cons e t ih =>
    rcases List.pairwise_cons.mp hs with ⟨hhead, htail⟩
    by_cases h : e.1 = k
    · simp only [eraseKV, if_pos h]
      exact lookupKV_none_of_forall_gt k t (fun f hf => by
        have := hhead f hf
        simp only [kvLt] at this
        omega)
    · simp only [eraseKV, if_neg h, lookupKV, if_neg h]
      exact ih htail

theorem lookupKV_eraseKV_ne (k j : Nat) (l : List (Nat × V)) (hne : j ≠ k) :
    lookupKV j (eraseKV k l) = lookupKV j l := by
  induction l with
  | nil => simp [eraseKV]
  | cons e t ih =>
    by_cases h : e.1 = k
    · simp only [eraseKV, if_pos h, lookupKV]
      rw [if_neg (by rw [h]; exact fun hh => hne hh.symm)]
    · simp only [eraseKV, if_neg h, lookupKV]
      by_cases h2 : e.1 = j
      · simp [h2]
      · simp [h2, ih]

theorem pairwise_insertKV (k : Nat) (v : V) (l : List (Nat × V))
    (hs : l.Pairwise kvLt) : (insertKV k v l).Pairwise kvLt := by
  induction l with
  | nil => simp [insertKV, kvLt]
  | cons e t ih =>
    rcases List.pairwise_cons.mp hs with ⟨hhead, htail⟩
    by_cases h1 : k < e.1
    · simp only [insertKV, if_pos h1]
      refine List.pairwise_cons.mpr ⟨?_, hs⟩
      intro b hb
      rcases List.mem_cons.mp hb with hb | hb
      · simpa [kvLt, hb] using h1
      · exact Nat.lt_trans h1 (hhead b hb)
    · by_cases h2 : k = e.1
      · simp only [insertKV, if_neg h1, if_pos h2]
        refine List.pairwise_cons.mpr ⟨?_, htail⟩
        intro b hb
        simpa [kvLt, h2] using hhead b hb
      · simp only [insertKV, if_neg h1, if_neg h2]
        refine List.pairwise_cons.mpr ⟨?_, ih htail⟩
        intro b hb
        rcases mem_insertKV k v t b hb with hc | hc
        · simp only [kvLt, hc]
          omega
        · exact hhead b hc

theorem pairwise_eraseKV (k : Nat) (l : List (Nat × V))
    (hs : l.Pairwise kvLt) : (eraseKV k l).Pairwise kvLt := by
  induction l with
  | nil => simp [eraseKV]
  | cons e t ih =>
    rcases List.pairwise_cons.mp hs with ⟨hhead, htail⟩
    by_cases h : e.1 = k
    · simpa [eraseKV, h] using htail
    · simp only [eraseKV, if_neg h]
      refine List.pairwise_cons.mpr ⟨?_, ih htail⟩
      intro b hb
      exact hhead b (mem_eraseKV k t b hb)

theorem insertKV_of_forall_gt (k : Nat) (v : V) (l : List (Nat × V))
    (h : ∀ e ∈ l, k < e.1) : insertKV k v l = (k, v) :: l := by
  cases l with
  | nil => rfl
  | cons e t => simp [insertKV, h e (by simp)]

theorem length_insertKV (k : Nat) (v : V) (l : List (Nat × V))
    (hs : l.Pairwise kvLt) :
    (insertKV k v l).length =
      if (lookupKV k l).isSome then l.length else l.length + 1 := by
  induction l with
  | nil => simp [insertKV, lookupKV]
  | cons e t ih =>
    rcases List.pairwise_cons.mp hs with ⟨hhead, htail⟩
    by_cases h1 : k < e.1
    · have he : ¬(e.1 = k) := by omega
      simp only [insertKV, if_pos h1, lookupKV, if_neg he, List.length_cons]
      rw [lookupKV_none_of_forall_gt k t (fun f hf => by
        have := hhead f hf
        simp only [kvLt] at this
        omega)]
      simp
    · by_cases h2 : k = e.1
      · simp [insertKV, h1, h2, lookupKV]
      · have he : ¬(e.1 = k) := fun h => h2 h.symm
        simp only [insertKV, if_neg h1, if_neg h2, lookupKV, if_neg he,
          List.length_cons, ih htail]
        by_cases hl : (lookupKV k t).isSome
        · simp [hl]
        · simp [hl]

theorem length_eraseKV (k : Nat) (l : List (Nat × V)) :
    (eraseKV k l).length =
      if (lookupKV k l).isSome then l.length - 1 else l.length := by
  induction l with
  | nil => simp [eraseKV, lookupKV]
  | cons e t ih =>
    by_cases h : e.1 = k
    · simp [eraseKV, h, lookupKV]
    · simp only [eraseKV, if_neg h, lookupKV, if_neg h, List.length_cons, ih]
      by_cases hl : (lookupKV k t).isSome
      · simp only [hl, if_pos]
        have : 1 ≤ t.length := by
          cases t with
          | nil => simp [lookupKV] at hl
          | cons f u => simp
        omega
      · simp [hl]

theorem eraseKV_of_lookup_none (k : Nat) (l : List (Nat × V))
    (h : lookupKV k l = none) : eraseKV k l = l := by
  induction l with
  | nil => rfl
  | cons e t ih =>
    simp only [lookupKV] at h
    by_cases he : e.1 = k
    · simp [he] at h
    · simp only [eraseKV, if_neg he]
      rw [ih (by simpa [he] using h)]

theorem lookupKV_cons_none_of_lt (k : Nat) (f : Nat × V) (u : List (Nat × V))
    (hs : (f :: u).Pairwise kvLt) (hk : k < f.1) :
    lookupKV k (f :: u) = none := by
  rcases List.pairwise_cons.mp hs with ⟨hh, _⟩
  refine lookupKV_none_of_forall_gt k (f :: u) (fun g hg => ?_)
  rcases List.mem_cons.mp hg with hg | hg
  · rw [hg]
    exact hk
  · have := hh g hg
    simp only [kvLt] at this
    omega

/-- Extensionality: key-sorted lists with the same lookups are equal. -/
theorem ext_sorted_kv (l1 : List (Nat × V)) : ∀ (l2 : List (Nat × V)),
    l1.Pairwise kvLt → l2.Pairwise kvLt →
    (∀ k, lookupKV k l1 = lookupKV k l2) → l1 = l2 := by
  induction l1 with
  | nil =>
    intro l2 _ _ h
    cases l2 with
    | nil => rfl
    | cons e t =>
      have h3 := h e.1
      simp [lookupKV] at h3
  | cons e t ih =>
    intro l2 h1 h2 h
    cases l2 with
    | nil =>
      have h3 := h e.1
      simp [lookupKV] at h3
    | cons f u =>
      rcases List.pairwise_cons.mp h1 with ⟨hh1, ht1⟩
      rcases List.pairwise_cons.mp h2 with ⟨hh2, ht2⟩
      have hef : e.1 = f.1 := by
        rcases Nat.lt_trichotomy e.1 f.1 with hlt | heq | hgt
        · exfalso
          have h3 := h e.1
          rw [lookupKV_cons_none_of_lt e.1 f u h2 hlt] at h3
          simp [lookupKV] at h3
        · exact heq
        · exfalso
          have h3 := h f.1
          rw [lookupKV_cons_none_of_lt f.1 e t h1 hgt] at h3
          simp [lookupKV] at h3
      have hev : e.2 = f.2 := by
        have h3 := h e.1
        simp only [lookupKV, if_pos rfl] at h3
        rw [if_pos hef.symm] at h3
        exact Option.some.inj h3
      have htail : t = u := by
        refine ih u ht1 ht2 (fun k => ?_)
        by_cases hk : k = e.1
        · rw [hk]
          rw [lookupKV_none_of_forall_gt e.1 t (fun g hg => by
              have := hh1 g hg
              simp only [kvLt] at this
              omega),
            lookupKV_none_of_forall_gt e.1 u (fun g hg => by
              have := hh2 g hg
              simp only [kvLt] at this
              omega)]
        · have hne1 : ¬(e.1 = k) := fun hc => hk hc.symm
          have hne2 : ¬(f.1 = k) := by
            rw [← hef]
            exact hne1
          have h3 := h k
          simp only [lookupKV] at h3
          rw [if_neg hne1, if_neg hne2] at h3
          exact h3
      calc e :: t = (e.1, e.2) :: t := by simp
        _ = (f.1, f.2) :: u := by rw [hef, hev, htail]
        _ = f :: u := by simp

theorem lookupKV_filter (p : Nat → Bool) (k : Nat) (l : List (Nat × V)) :
    lookupKV k (l.filter (fun e => p e.1)) =
      if p k then lookupKV k l else none := by
  induction l with
  | nil => simp [lookupKV]
  | cons e t ih =>
    by_cases hpe : p e.1
    · rw [List.filter_cons_of_pos (by simpa using hpe)]
      by_cases hek : e.1 = k
      · subst hek
        simp [lookupKV, hpe]
      · simp only [lookupKV, if_neg hek, ih]
    · rw [List.filter_cons_of_neg (by simpa using hpe)]
      by_cases hek : e.1 = k
      · subst hek
        simp only [ih, lookupKV, if_pos rfl]
        simp [hpe]
      · simp only [lookupKV, if_neg hek, ih]

theorem filter_insertKV_pos (p : Nat → Bool) (k : Nat) (v : V)
    (l : List (Nat × V)) (hs : l.Pairwise kvLt) (hp : p k = true) :
    (insertKV k v l).filter (fun e => p e.1) =
      insertKV k v (l.filter (fun e => p e.1)) := by
  induction l with
  | nil => simp [insertKV, hp]
  | cons e t ih =>
    rcases List.pairwise_cons.mp hs with ⟨hhead, htail⟩
    by_cases h1 : k < e.1
    · simp only [insertKV, if_pos h1]
      rw [List.filter_cons_of_pos (by simpa using hp)]
      rw [insertKV_of_forall_gt k v _ (fun f hf => by
        rcases List.mem_cons.mp (List.mem_of_mem_filter hf) with hf2 | hf2
        · rw [hf2]; exact h1
        · have := hhead f hf2
          simp only [kvLt] at this
          omega)]
    · by_cases h2 : k = e.1
      · subst h2
        have hl : insertKV e.1 v (e :: t) = (e.1, v) :: t := by
          simp [insertKV, h1]
        have hr : insertKV e.1 v (e :: t.filter (fun f => p f.1)) =
            (e.1, v) :: t.filter (fun f => p f.1) := by
          simp [insertKV, h1]
        rw [hl, List.filter_cons_of_pos (by simpa using hp),
          List.filter_cons_of_pos (by simpa using hp), hr]
      · simp only [insertKV, if_neg h1, if_neg h2]
        by_cases hpe : p e.1
        · rw [List.filter_cons_of_pos (by simpa using hpe),
            List.filter_cons_of_pos (by simpa using hpe), ih htail]
          simp only [insertKV]
          rw [if_neg h1, if_neg h2]
        · rw [List.filter_cons_of_neg (by simpa using hpe),
            List.filter_cons_of_neg (by simpa using hpe), ih htail]

theorem filter_insertKV_neg (p : Nat → Bool) (k : Nat) (v : V)
    (l : List (Nat × V)) (hp : p k = false) :
    (insertKV k v l).filter (fun e => p e.1) = l.filter (fun e => p e.1) := by
  induction l with
  | nil => simp [insertKV, hp]
  | cons e t ih =>
    by_cases h1 : k < e.1
    · simp only [insertKV, if_pos h1]
      rw [List.filter_cons_of_neg (by simpa using hp)]
    · by_cases h2 : k = e.1
      · subst h2
        have hl : insertKV e.1 v (e :: t) = (e.1, v) :: t := by
          simp [insertKV, h1]
        rw [hl, List.filter_cons_of_neg (by simpa using hp),
          List.filter_cons_of_neg (by simpa using hp)]
      · simp only [insertKV, if_neg h1, if_neg h2]
        by_cases hpe : p e.1
        · rw [List.filter_cons_of_pos (by simpa using hpe),
            List.filter_cons_of_pos (by simpa using hpe), ih]
        · rw [List.filter_cons_of_neg (by simpa using hpe),
            List.filter_cons_of_neg (by simpa using hpe), ih]

theorem filter_eraseKV_pos (p : Nat → Bool) (k : Nat) (l : List (Nat × V))
    (hp : p k = true) :
    (eraseKV k l).filter (fun e => p e.1) =
      eraseKV k (l.filter (fun e => p e.1)) := by
  induction l with
  | nil => simp [eraseKV]
  | cons e t ih =>
    by_cases h : e.1 = k
    · subst h
      simp only [eraseKV, if_pos rfl]
      rw [List.filter_cons_of_pos (by simpa using hp)]
      simp [eraseKV]
    · simp only [eraseKV, if_neg h]
      by_cases hpe : p e.1
      · rw [List.filter_cons_of_pos (by simpa using hpe),
          List.filter_cons_of_pos (by simpa using hpe), ih]
        simp [eraseKV, h]
      · rw [List.filter_cons_of_neg (by simpa using hpe),
          List.filter_cons_of_neg (by simpa using hpe), ih]

theorem filter_eraseKV_neg (p : Nat → Bool) (k : Nat) (l : List (Nat × V))
    (hp : p k = false) :
    (eraseKV k l).filter (fun e => p e.1) = l.filter (fun e => p e.1) := by
  induction l with
  | nil => simp [eraseKV]
  | cons e t ih =>
    by_cases h : e.1 = k
    · subst h
      have hl : eraseKV e.1 (e :: t) = t := by
        simp [eraseKV]
      rw [hl, List.filter_cons_of_neg (by simpa using hp)]
    · simp only [eraseKV, if_neg h]
      by_cases hpe : p e.1
      · rw [List.filter_cons_of_pos (by simpa using hpe),
          List.filter_cons_of_pos (by simpa using hpe), ih]
      · rw [List.filter_cons_of_neg (by simpa using hpe),
          List.filter_cons_of_neg (by simpa using hpe), ih]

theorem pairwise_sortKV (l : List (Nat × V)) : (sortKV l).Pairwise kvLt := by
  induction l with
  | nil => simp [sortKV]
  | cons e t ih => exact pairwise_insertKV e.1 e.2 _ ih

theorem lookupKV_sortKV (k : Nat) (l : List (Nat × V)) :
    lookupKV k (sortKV l) = lookupKV k l := by
  induction l with
  | nil => rfl
  | cons e t ih =>
    show lookupKV k (insertKV e.1 e.2 (sortKV t)) = _
    by_cases h : e.1 = k
    · subst h
      rw [lookupKV_insertKV_self]
      simp [lookupKV]
    · rw [lookupKV_insertKV_ne _ _ _ _ (fun hc => h hc.symm), ih]
      simp [lookupKV, h]

theorem lookupKV_none_iff_keys (k : Nat) (l : List (Nat × V)) :
    lookupKV k l = none ↔ k ∉ l.map Prod.fst := by
  induction l with
  | nil => simp [lookupKV]
  | cons e t ih =>
    simp only [List.map_cons, List.mem_cons, lookupKV]
    by_cases h : e.1 = k
    · simp [h]
    · rw [if_neg h, ih]
      have hne : ¬(k = e.1) := fun hc => h hc.symm
      tauto

theorem nodup_keys_of_pairwise (l : List (Nat × V)) (hs : l.Pairwise kvLt) :
    (l.map Prod.fst).Nodup := by
  induction l with
  | nil => simp
  | cons e t ih =>
    rcases List.pairwise_cons.mp hs with ⟨hhead, htail⟩
    refine List.nodup_cons.mpr ⟨?_, ih htail⟩
    intro hc
    rcases List.mem_map.mp hc with ⟨f, hf, hfe⟩
    have := hhead f hf
    simp only [kvLt] at this
    omega

theorem insertKV_perm_cons (k : Nat) (v : V) (l : List (Nat × V))
    (h : lookupKV k l = none) : List.Perm (insertKV k v l) ((k, v) :: l) := by
  induction l with
  | nil => simp [insertKV]
  | cons e t ih =>
    simp only [lookupKV] at h
    by_cases he : e.1 = k
    · simp [he] at h
    · rw [if_neg he] at h
      by_cases h1 : k < e.1
      · simp [insertKV, h1]
      · by_cases h2 : k = e.1
        · exact absurd h2.symm he
        · simp only [insertKV, if_neg h1, if_neg h2]
          exact ((ih h).cons e).trans (List.Perm.swap (k, v) e t)

theorem sortKV_perm (l : List (Nat × V)) (h : (l.map Prod.fst).Nodup) :
    List.Perm (sortKV l) l := by
  induction l with
  | nil => simp [sortKV]
  | cons e t ih =>
    rw [List.map_cons] at h
    rcases List.nodup_cons.mp h with ⟨hnot, hnd⟩
    have hperm : List.Perm (sortKV t) t := ih hnd
    have hnone : lookupKV e.1 (sortKV t) = none := by
      rw [lookupKV_sortKV]
      exact (lookupKV_none_iff_keys e.1 t).mpr hnot
    show List.Perm (insertKV e.1 e.2 (sortKV t)) (e :: t)
    refine (insertKV_perm_cons e.1 e.2 (sortKV t) hnone).trans ?_
    have : ((e.1, e.2) : Nat × V) = e := by simp
    rw [this]
    exact hperm.cons e

/-- `kvLt` is vacuously antisymmetric: keys cannot be mutually smaller. -/
theorem kvLt_antisymm (a b : Nat × V) (hab : kvLt a b) (hba : kvLt b a) :
    a = b := by
  simp only [kvLt] at hab hba
  omega

/-- Sorted lists that are permutations of each other coincide. -/
theorem eq_of_perm_sorted_kv (l1 l2 : List (Nat × V))
    (hp : List.Perm l1 l2) (h1 : l1.Pairwise kvLt) (h2 : l2.Pairwise kvLt) :
    l1 = l2 :=
  hp.eq_of_sorted (fun a b _ _ hab hba => kvLt_antisymm a b hab hba) h1 h2

end KV

section HamtLemmas

variable {V : Type}

theorem canonSlots_length (F : Nat → Except HamtErrM (Option (HPointer V)))
    (js : List Nat) (slots : HNode V) (h : canonSlots F js = .ok slots) :
    slots.length = js.length := by
  induction js generalizing slots with
  | nil =>
    simp only [canonSlots] at h
    cases h
    rfl
  | cons j rest ih =>
    simp only [canonSlots] at h
    cases hF : F j with
    | error e => rw [hF] at h; cases h
    | ok p =>
      rw [hF] at h
      cases hR : canonSlots F rest with
      | error e => rw [hR] at h; cases h
      | ok r =>
        rw [hR] at h
        cases h
        simp [ih r hR]

theorem canonSlots_map_succ (F : Nat → Except HamtErrM (Option (HPointer V)))
    (js : List Nat) :
    canonSlots F (js.map Nat.succ) = canonSlots (fun j => F (j + 1)) js := by
  induction js with
  | nil => rfl
  | cons j rest ih =>
    simp only [List.map_cons, canonSlots, ih]

theorem canonSlots_congr (F G : Nat → Except HamtErrM (Option (HPointer V)))
    (js : List Nat) (h : ∀ j ∈ js, F j = G j) :
    canonSlots F js = canonSlots G js := by
  induction js with
  | nil => rfl
  | cons j rest ih =>
    simp only [canonSlots, h j (by simp)]
    rw [ih (fun i hi => h i (List.mem_cons_of_mem _ hi))]

theorem canonSlots_build (F : Nat → Except HamtErrM (Option (HPointer V)))
    (G : Nat → Option (HPointer V)) (js : List Nat)
    (h : ∀ j ∈ js, F j = .ok (G j)) :
    canonSlots F js = .ok (js.map G) := by
  induction js with
  | nil => rfl
  | cons j rest ih =>
    simp only [canonSlots, h j (by simp), List.map_cons]
    rw [ih (fun i hi => h i (List.mem_cons_of_mem _ hi))]

theorem canonSlots_range_get (n : Nat)
    (F : Nat → Except HamtErrM (Option (HPointer V))) (slots : HNode V)
    (h : canonSlots F (List.range n) = .ok slots) :
    ∀ i, i < n → F i = .ok (slots.getD i none) := by
  induction n generalizing F slots with
  | zero => intro i hi; omega
  | succ n ih =>
    rw [List.range_succ_eq_map] at h
    simp only [canonSlots] at h
    cases hF : F 0 with
    | error e => rw [hF] at h; cases h
    | ok p =>
      rw [hF, canonSlots_map_succ] at h
      cases hR : canonSlots (fun j => F (j + 1)) (List.range n) with
      | error e => rw [hR] at h; cases h
      | ok r =>
        rw [hR] at h
        cases h
        intro i hi
        cases i with
        | zero => simpa using hF
        | succ i' =>
          have := ih (fun j => F (j + 1)) r hR i' (by omega)
          simpa using this

theorem canonSlots_range_set (n : Nat)
    (F F2 : Nat → Except HamtErrM (Option (HPointer V))) (slots : HNode V)
    (j : Nat) (p2 : Option (HPointer V))
    (h : canonSlots F (List.range n) = .ok slots) (hj : j < n)
    (h2 : F2 j = .ok p2) (hsame : ∀ i, i < n → i ≠ j → F2 i = F i) :
    canonSlots F2 (List.range n) = .ok (slots.set j p2) := by
  induction n generalizing F F2 slots j with
  | zero => omega
  | succ n ih =>
    rw [List.range_succ_eq_map] at h
    simp only [canonSlots] at h
    cases hF : F 0 with
    | error e => rw [hF] at h; cases h
    | ok p =>
      rw [hF, canonSlots_map_succ] at h
      cases hR : canonSlots (fun i => F (i + 1)) (List.range n) with
      | error e => rw [hR] at h; cases h
      | ok r =>
        rw [hR] at h
        cases h
        rw [List.range_succ_eq_map]
        simp only [canonSlots]
        cases j with
        | zero =>
          rw [h2, canonSlots_map_succ]
          rw [canonSlots_congr (fun i => F2 (i + 1)) (fun i => F (i + 1))
            (List.range n)
            (fun i hi => hsame (i + 1) (by simpa using List.mem_range.mp hi) (by omega))]
          rw [hR]
          simp
        | succ j' =>
          rw [hsame 0 (by omega) (by omega), hF, canonSlots_map_succ]
          rw [ih (fun i => F (i + 1)) (fun i => F2 (i + 1)) r j' hR (by omega)
            h2 (fun i hi hij => hsame (i + 1) (by omega) (by omega))]
          simp

theorem canonSlots_range_set_error (n : Nat)
    (F F2 : Nat → Except HamtErrM (Option (HPointer V))) (slots : HNode V)
    (j : Nat) (e : HamtErrM)
    (h : canonSlots F (List.range n) = .ok slots) (hj : j < n)
    (h2 : F2 j = .error e) (hsame : ∀ i, i < n → i ≠ j → F2 i = F i) :
    canonSlots F2 (List.range n) = .error e := by
  induction n generalizing F F2 slots j with
  | zero => omega
  | succ n ih =>
    rw [List.range_succ_eq_map] at h
    simp only [canonSlots] at h
    cases hF : F 0 with
    | error e2 => rw [hF] at h; cases h
    | ok p =>
      rw [hF, canonSlots_map_succ] at h
      cases hR : canonSlots (fun i => F (i + 1)) (List.range n) with
      | error e2 => rw [hR] at h; cases h
      | ok r =>
        rw [hR] at h
        cases h
        rw [List.range_succ_eq_map]
        simp only [canonSlots]
        cases j with
        | zero => rw [h2]
        | succ j' =>
          rw [hsame 0 (by omega) (by omega), hF, canonSlots_map_succ]
          rw [ih (fun i => F (i + 1)) (fun i => F2 (i + 1)) r j' hR (by omega)
            h2 (fun i hi hij => hsame (i + 1) (by omega) (by omega))]

end HamtLemmas

section PartitionLemmas

variable {V : Type}

theorem filter_chunk_of_filter_ne (f : Nat → Nat) (i j : Nat) (hij : i ≠ j)
    (l : List (Nat × V)) :
    (l.filter (fun e => !(f e.1 == j))).filter (fun e => f e.1 == i) =
      l.filter (fun e => f e.1 == i) := by
  induction l with
  | nil => rfl
  | cons e t ih =>
    by_cases hj : f e.1 = j
    · rw [List.filter_cons_of_neg (by simp [hj]),
        List.filter_cons_of_neg (by
          simp only [hj, beq_iff_eq]
          exact fun hc => hij hc.symm), ih]
    · rw [List.filter_cons_of_pos (by simp [hj])]
      by_cases hi : f e.1 = i
      · rw [List.filter_cons_of_pos (by simp [hi]),
          List.filter_cons_of_pos (by simp [hi]), ih]
      · rw [List.filter_cons_of_neg (by simp [hi]),
          List.filter_cons_of_neg (by simp [hi]), ih]

theorem partition_flatten_perm (f : Nat → Nat) (js : List Nat)
    (l : List (Nat × V)) (hnd : js.Nodup) (hcover : ∀ e ∈ l, f e.1 ∈ js) :
    List.Perm ((js.map (fun j => l.filter (fun e => f e.1 == j))).flatten) l := by
  induction js generalizing l with
  | nil =>
    cases l with
    | nil => simp
    | cons e t => exact absurd (hcover e (by simp)) (by simp)
  | cons j rest ih =>
    rcases List.nodup_cons.mp hnd with ⟨hj, hndr⟩
    simp only [List.map_cons, List.flatten_cons]
    have hmap : rest.map (fun i => l.filter (fun e => f e.1 == i)) =
        rest.map (fun i =>
          (l.filter (fun e => !(f e.1 == j))).filter (fun e => f e.1 == i)) := by
      refine List.map_congr_left (fun i hi => ?_)
      rw [filter_chunk_of_filter_ne f i j (fun hc => hj (hc ▸ hi)) l]
    rw [hmap]
    have hcover2 : ∀ e ∈ l.filter (fun e => !(f e.1 == j)), f e.1 ∈ rest := by
      intro e he
      have hmem := List.mem_of_mem_filter he
      have hval := List.of_mem_filter he
      simp only [Bool.not_eq_true', beq_eq_false_iff_ne] at hval
      rcases List.mem_cons.mp (hcover e hmem) with hc | hc
      · exact absurd hc hval
      · exact hc
    refine (List.Perm.append_left _ (ih _ hndr hcover2)).trans ?_
    exact List.filter_append_perm _ l

theorem partition_length_sum (f : Nat → Nat) (js : List Nat)
    (l : List (Nat × V)) (hnd : js.Nodup) (hcover : ∀ e ∈ l, f e.1 ∈ js) :
    ((js.map (fun j => l.filter (fun e => f e.1 == j))).map List.length).sum =
      l.length := by
  rw [← List.length_flatten]
  exact (partition_flatten_perm f js l hnd hcover).length_eq

end PartitionLemmas

section CanonInversion

variable {V : Type}

theorem canonPtr_nil (cfg : HamtConfig) (fuel d : Nat) :
    canonPtr cfg fuel d ([] : List (Nat × V)) = .ok none := by
  cases fuel <;> simp [canonPtr]

theorem canonPtr_bucket_of_small (cfg : HamtConfig) (fuel d : Nat)
    (w : List (Nat × V)) (h0 : w.length ≠ 0) (hK : w.length ≤ cfg.bucketCap) :
    canonPtr cfg fuel d w = .ok (some (.bucket w)) := by
  cases fuel <;> simp [canonPtr, h0, hK]

theorem canonPtr_ok_none (cfg : HamtConfig) (fuel d : Nat)
    (w : List (Nat × V)) (h : canonPtr cfg fuel d w = .ok none) : w = [] := by
  by_cases h0 : w.length = 0
  · exact List.length_eq_zero.mp h0
  · exfalso
    by_cases hK : w.length ≤ cfg.bucketCap
    · rw [canonPtr_bucket_of_small cfg fuel d w h0 hK] at h
      cases h
    · cases fuel with
      | zero =>
        simp only [canonPtr, if_neg h0, if_neg hK] at h
        cases h
      | succ f =>
        simp only [canonPtr, if_neg h0, if_neg hK] at h
        cases hcs : canonSlots
            (fun j => canonPtr cfg f (d + 1)
              (w.filter (fun e => cfg.ch e.1 d == j)))
            (List.range cfg.slots) with
        | error e => rw [hcs] at h; cases h
        | ok slots => rw [hcs] at h; cases h

theorem canonPtr_ok_bucket (cfg : HamtConfig) (fuel d : Nat)
    (w b : List (Nat × V))
    (h : canonPtr cfg fuel d w = .ok (some (.bucket b))) :
    b = w ∧ w.length ≠ 0 ∧ w.length ≤ cfg.bucketCap := by
  by_cases h0 : w.length = 0
  · rw [List.length_eq_zero.mp h0, canonPtr_nil] at h
    cases h
  · by_cases hK : w.length ≤ cfg.bucketCap
    · rw [canonPtr_bucket_of_small cfg fuel d w h0 hK] at h
      cases h
      exact ⟨rfl, h0, hK⟩
    · exfalso
      cases fuel with
      | zero =>
        simp only [canonPtr, if_neg h0, if_neg hK] at h
        cases h
      | succ f =>
        simp only [canonPtr, if_neg h0, if_neg hK] at h
        cases hcs : canonSlots
            (fun j => canonPtr cfg f (d + 1)
              (w.filter (fun e => cfg.ch e.1 d == j)))
            (List.range cfg.slots) with
        | error e => rw [hcs] at h; cases h
        | ok slots => rw [hcs] at h; cases h

theorem canonPtr_ok_child (cfg : HamtConfig) (fuel d : Nat)
    (w : List (Nat × V)) (s : HNode V)
    (h : canonPtr cfg fuel d w = .ok (some (.child s))) :
    cfg.bucketCap < w.length ∧ ∃ f, fuel = f + 1 ∧
      canonSlots
        (fun j => canonPtr cfg f (d + 1)
          (w.filter (fun e => cfg.ch e.1 d == j)))
        (List.range cfg.slots) = .ok s := by
  by_cases h0 : w.length = 0
  · rw [List.length_eq_zero.mp h0, canonPtr_nil] at h
    cases h
  · by_cases hK : w.length ≤ cfg.bucketCap
    · rw [canonPtr_bucket_of_small cfg fuel d w h0 hK] at h
      cases h
    · refine ⟨by omega, ?_⟩
      cases fuel with
      | zero =>
        simp only [canonPtr, if_neg h0, if_neg hK] at h
        cases h
      | succ f =>
        refine ⟨f, rfl, ?_⟩
        simp only [canonPtr, if_neg h0, if_neg hK] at h
        cases hcs : canonSlots
            (fun j => canonPtr cfg f (d + 1)
              (w.filter (fun e => cfg.ch e.1 d == j)))
            (List.range cfg.slots) with
        | error e => rw [hcs] at h; cases h
        | ok slots =>
          rw [hcs] at h
          cases h
          rfl

theorem canonPtr_large (cfg : HamtConfig) (f d : Nat) (w : List (Nat × V))
    (hK : ¬(w.length ≤ cfg.bucketCap)) :
    canonPtr cfg (f + 1) d w =
      match canonSlots
          (fun j => canonPtr cfg f (d + 1)
            (w.filter (fun e => cfg.ch e.1 d == j)))
          (List.range cfg.slots) with
      | .error e => .error e
      | .ok slots => .ok (some (.child slots)) := by
  have h0 : ¬(w.length = 0) := by
    intro hc
    rw [hc] at hK
    exact hK (Nat.zero_le _)
  simp [canonPtr, h0, hK]

end CanonInversion

section SetCanon

variable {V : Type}

theorem insertKV_self_eq (k : Nat) (v : V) (l : List (Nat × V))
    (hs : l.Pairwise kvLt) (hl : lookupKV k l = some v) :
    insertKV k v l = l := by
  induction l with
  | nil => simp [lookupKV] at hl
  | cons e t ih =>
    rcases List.pairwise_cons.mp hs with ⟨hhead, htail⟩
    by_cases he : e.1 = k
    · have hev : e.2 = v := by
        simp only [lookupKV, if_pos he] at hl
        exact Option.some.inj hl
      have h1 : ¬(k < e.1) := by omega
      simp only [insertKV, if_neg h1, if_pos he.symm]
      calc (k, v) :: t = (e.1, e.2) :: t := by rw [he, hev]
        _ = e :: t := by simp
    · simp only [lookupKV, if_neg he] at hl
      have hkt : k ∈ t.map Prod.fst := by
        by_contra hc
        rw [(lookupKV_none_iff_keys k t).mpr hc] at hl
        cases hl
      have hgt : e.1 < k := by
        rcases List.mem_map.mp hkt with ⟨f, hf, hfk⟩
        have := hhead f hf
        simp only [kvLt] at this
        omega
      have h1 : ¬(k < e.1) := by omega
      have h2 : ¬(k = e.1) := fun hc => he hc.symm
      simp only [insertKV, if_neg h1, if_neg h2]
      rw [ih htail hl]

theorem filter_chunk_insert_pos (cfg : HamtConfig) (d j k : Nat) (v : V)
    (l : List (Nat × V)) (hs : l.Pairwise kvLt) (hj : cfg.ch k d = j) :
    (insertKV k v l).filter (fun e => cfg.ch e.1 d == j) =
      insertKV k v (l.filter (fun e => cfg.ch e.1 d == j)) :=
  filter_insertKV_pos (fun m => cfg.ch m d == j) k v l hs (by simp [hj])

theorem filter_chunk_insert_neg (cfg : HamtConfig) (d j k : Nat) (v : V)
    (l : List (Nat × V)) (hj : cfg.ch k d ≠ j) :
    (insertKV k v l).filter (fun e => cfg.ch e.1 d == j) =
      l.filter (fun e => cfg.ch e.1 d == j) :=
  filter_insertKV_neg (fun m => cfg.ch m d == j) k v l (by simp [hj])

theorem filter_chunk_erase_pos (cfg : HamtConfig) (d j k : Nat)
    (l : List (Nat × V)) (hj : cfg.ch k d = j) :
    (eraseKV k l).filter (fun e => cfg.ch e.1 d == j) =
      eraseKV k (l.filter (fun e => cfg.ch e.1 d == j)) :=
  filter_eraseKV_pos (fun m => cfg.ch m d == j) k l (by simp [hj])

theorem filter_chunk_erase_neg (cfg : HamtConfig) (d j k : Nat)
    (l : List (Nat × V)) (hj : cfg.ch k d ≠ j) :
    (eraseKV k l).filter (fun e => cfg.ch e.1 d == j) =
      l.filter (fun e => cfg.ch e.1 d == j) :=
  filter_eraseKV_neg (fun m => cfg.ch m d == j) k l (by simp [hj])

theorem lookupKV_filter_chunk (cfg : HamtConfig) (d j k : Nat)
    (l : List (Nat × V)) (hj : cfg.ch k d = j) :
    lookupKV k (l.filter (fun e => cfg.ch e.1 d == j)) = lookupKV k l := by
  have h := lookupKV_filter (fun m => cfg.ch m d == j) k l
  simpa [hj] using h

end SetCanon

section SetCanonMain

variable {V : Type} [DecidableEq V]

theorem setPtr_canon_flat (cfg : HamtConfig) (hwf : cfg.WF) (fuel d : Nat)
    (sub : List (Nat × V)) (p : Option (HPointer V)) (k : Nat) (v : V)
    (hs : sub.Pairwise kvLt) (hp : canonPtr cfg fuel d sub = .ok p)
    (hK : sub.length ≤ cfg.bucketCap) :
    setPtr cfg fuel d p k v true =
      (match canonPtr cfg fuel d (insertKV k v sub) with
       | .error e => .error e
       | .ok p2 =>
         .ok (p2, lookupKV k sub, decide (¬(lookupKV k sub = some v)))) := by
  by_cases h0 : sub.length = 0
  · have hsub : sub = [] := List.length_eq_zero.mp h0
    subst hsub
    rw [canonPtr_nil] at hp
    cases hp
    have hins : insertKV k v ([] : List (Nat × V)) = [(k, v)] := rfl
    rw [hins, canonPtr_bucket_of_small cfg fuel d [(k, v)] (by simp)
      (by simpa using hwf.2.1)]
    simp [setPtr, lookupKV]
  · rw [canonPtr_bucket_of_small cfg fuel d sub h0 hK] at hp
    cases hp
    cases hlk : lookupKV k sub with
    | some old =>
      have hlen : (insertKV k v sub).length = sub.length := by
        rw [length_insertKV k v sub hs, hlk]
        simp
      by_cases hov : old = v
      · rw [hov] at hlk
        have hself : insertKV k v sub = sub := insertKV_self_eq k v sub hs hlk
        rw [hself, canonPtr_bucket_of_small cfg fuel d sub h0 hK]
        simp only [setPtr, hlk]
        simp [hov]
      · rw [canonPtr_bucket_of_small cfg fuel d (insertKV k v sub)
          (by omega) (by omega)]
        simp [setPtr, hlk, hov]
    | none =>
      by_cases hroom : sub.length < cfg.bucketCap
      · have hlen : (insertKV k v sub).length = sub.length + 1 := by
          rw [length_insertKV k v sub hs, hlk]
          simp
        rw [canonPtr_bucket_of_small cfg fuel d (insertKV k v sub)
          (by omega) (by omega)]
        simp [setPtr, hlk, hroom]
      · simp only [setPtr, hlk, if_neg hroom]
        cases hcan : canonPtr cfg fuel d (insertKV k v sub) with
        | error e => simp
        | ok p2 => simp

theorem setPtr_canon (cfg : HamtConfig) (hwf : cfg.WF) :
    ∀ (fuel d : Nat) (sub : List (Nat × V)) (p : Option (HPointer V))
      (k : Nat) (v : V),
      sub.Pairwise kvLt →
      canonPtr cfg fuel d sub = .ok p →
      setPtr cfg fuel d p k v true =
        (match canonPtr cfg fuel d (insertKV k v sub) with
         | .error e => .error e
         | .ok p2 =>
           .ok (p2, lookupKV k sub, decide (¬(lookupKV k sub = some v)))) := by
  intro fuel
  induction fuel with
  | zero =>
    intro d sub p k v hs hp
    by_cases hK : sub.length ≤ cfg.bucketCap
    · exact setPtr_canon_flat cfg hwf 0 d sub p k v hs hp hK
    · exfalso
      have h0 : ¬(sub.length = 0) := by omega
      simp only [canonPtr, if_neg h0, if_neg hK] at hp
      cases hp
  | succ f ih =>
    intro d sub p k v hs hp
    by_cases hK : sub.length ≤ cfg.bucketCap
    · exact setPtr_canon_flat cfg hwf (f + 1) d sub p k v hs hp hK
    · rw [canonPtr_large cfg f d sub hK] at hp
      cases hcs : canonSlots
          (fun j => canonPtr cfg f (d + 1)
            (sub.filter (fun e => cfg.ch e.1 d == j)))
          (List.range cfg.slots) with
      | error e => rw [hcs] at hp; cases hp
      | ok slots =>
        rw [hcs] at hp
        cases hp
        have hj0 : cfg.ch k d < cfg.slots := Nat.mod_lt _ hwf.1
        have hslot : canonPtr cfg f (d + 1)
            (sub.filter (fun e => cfg.ch e.1 d == cfg.ch k d)) =
            .ok (slots.getD (cfg.ch k d) none) :=
          canonSlots_range_get cfg.slots _ slots hcs (cfg.ch k d) hj0
        have hsubs : (sub.filter
            (fun e => cfg.ch e.1 d == cfg.ch k d)).Pairwise kvLt :=
          hs.filter _
        have hrec := ih (d + 1)
          (sub.filter (fun e => cfg.ch e.1 d == cfg.ch k d))
          (slots.getD (cfg.ch k d) none) k v hsubs hslot
        have hlkf : lookupKV k
            (sub.filter (fun e => cfg.ch e.1 d == cfg.ch k d)) =
            lookupKV k sub :=
          lookupKV_filter_chunk cfg d (cfg.ch k d) k sub rfl
        have hfilpos : (insertKV k v sub).filter
            (fun e => cfg.ch e.1 d == cfg.ch k d) =
            insertKV k v (sub.filter (fun e => cfg.ch e.1 d == cfg.ch k d)) :=
          filter_chunk_insert_pos cfg d (cfg.ch k d) k v sub hs rfl
        have hlen2 : ¬((insertKV k v sub).length ≤ cfg.bucketCap) := by
          rw [length_insertKV k v sub hs]
          by_cases hsome : (lookupKV k sub).isSome = true
          · rw [if_pos hsome]
            omega
          · rw [if_neg hsome]
            omega
        rw [canonPtr_large cfg f d (insertKV k v sub) hlen2]
        cases hcan2 : canonPtr cfg f (d + 1)
            (insertKV k v (sub.filter
              (fun e => cfg.ch e.1 d == cfg.ch k d))) with
        | error e =>
          have hcs2 : canonSlots
              (fun j => canonPtr cfg f (d + 1)
                ((insertKV k v sub).filter (fun e => cfg.ch e.1 d == j)))
              (List.range cfg.slots) = .error e := by
            refine canonSlots_range_set_error cfg.slots _ _ slots
              (cfg.ch k d) e hcs hj0 ?_ ?_
            · rw [hfilpos, hcan2]
            · intro i hi hne
              rw [filter_chunk_insert_neg cfg d i k v sub
                (fun hc => hne hc.symm)]
          rw [hcs2]
          simp only [setPtr]
          rw [hrec, hcan2]
        | ok p2 =>
          have hcs2 : canonSlots
              (fun j => canonPtr cfg f (d + 1)
                ((insertKV k v sub).filter (fun e => cfg.ch e.1 d == j)))
              (List.range cfg.slots) =
              .ok (slots.set (cfg.ch k d) p2) := by
            refine canonSlots_range_set cfg.slots _ _ slots
              (cfg.ch k d) p2 hcs hj0 ?_ ?_
            · rw [hfilpos, hcan2]
            · intro i hi hne
              rw [filter_chunk_insert_neg cfg d i k v sub
                (fun hc => hne hc.symm)]
          rw [hcs2]
          simp only [setPtr]
          rw [hrec, hcan2, hlkf]

end SetCanonMain

section CleanLemmas

variable {V : Type}

theorem bucketOf_eq_some (p : Option (HPointer V)) (b : List (Nat × V))
    (h : bucketOf p = some b) : p = some (.bucket b) := by
  cases p with
  | none => cases h
  | some q =>
    cases q with
    | bucket b2 =>
      simp only [bucketOf] at h
      cases h
      rfl
    | child s => cases h

theorem bucketsOnly_map (G : Nat → Option (HPointer V)) (js : List Nat)
    (h : ∀ j ∈ js, ∀ s, G j ≠ some (.child s)) :
    bucketsOnly (js.map G) = some (js.filterMap (fun j => bucketOf (G j))) := by
  induction js with
  | nil => rfl
  | cons j rest ih =>
    have ihr := ih (fun i hi => h i (List.mem_cons_of_mem _ hi))
    cases hG : G j with
    | none =>
      simp only [List.map_cons, hG, bucketsOnly, ihr]
      simp [List.filterMap_cons, hG, bucketOf]
    | some p =>
      cases p with
      | bucket b =>
        simp only [List.map_cons, hG, bucketsOnly, ihr]
        simp [List.filterMap_cons, hG, bucketOf]
      | child s => exact absurd hG (h j (by simp) s)

theorem bucketsOnly_none_of_child (G : Nat → Option (HPointer V))
    (js : List Nat) (j : Nat) (s : HNode V) (hj : j ∈ js)
    (hG : G j = some (.child s)) : bucketsOnly (js.map G) = none := by
  induction js with
  | nil => cases hj
  | cons i rest ih =>
    cases hGi : G i with
    | none =>
      have hjr : j ∈ rest := by
        rcases List.mem_cons.mp hj with hc | hc
        · rw [hc] at hG
          rw [hG] at hGi
          cases hGi
        · exact hc
      simp only [List.map_cons, hGi, bucketsOnly]
      exact ih hjr
    | some p =>
      cases p with
      | bucket b =>
        have hjr : j ∈ rest := by
          rcases List.mem_cons.mp hj with hc | hc
          · rw [hc] at hG
            rw [hG] at hGi
            cases hGi
          · exact hc
        simp only [List.map_cons, hGi, bucketsOnly, ih hjr]
        rfl
      | child s2 => simp [List.map_cons, hGi, bucketsOnly]

theorem filterMap_bucket_map (G : Nat → Option (HPointer V)) (js : List Nat)
    (h : ∀ j ∈ js, ∀ s, G j ≠ some (.child s)) :
    js.filterMap G =
      (js.filterMap (fun j => bucketOf (G j))).map HPointer.bucket := by
  induction js with
  | nil => rfl
  | cons j rest ih =>
    have ihr := ih (fun i hi => h i (List.mem_cons_of_mem _ hi))
    cases hG : G j with
    | none => simp [List.filterMap_cons, hG, bucketOf, ihr]
    | some p =>
      cases p with
      | bucket b => simp [List.filterMap_cons, hG, bucketOf, ihr]
      | child s => exact absurd hG (h j (by simp) s)

theorem flatten_buckets (G : Nat → Option (HPointer V))
    (Ff : Nat → List (Nat × V)) (js : List Nat)
    (h : ∀ j ∈ js, (G j = none ∧ Ff j = []) ∨
      (∃ b, G j = some (.bucket b) ∧ b = Ff j)) :
    (js.filterMap (fun j => bucketOf (G j))).flatten = (js.map Ff).flatten := by
  induction js with
  | nil => rfl
  | cons j rest ih =>
    have ihr := ih (fun i hi => h i (List.mem_cons_of_mem _ hi))
    rcases h j (by simp) with ⟨hG, hF⟩ | ⟨b, hG, hb⟩
    · have hhead : bucketOf (G j) = none := by
        rw [hG]
        rfl
      rw [List.filterMap_cons, hhead, List.map_cons, List.flatten_cons, hF,
        List.nil_append, ihr]
    · have hhead : bucketOf (G j) = some b := by
        rw [hG]
        rfl
      rw [List.filterMap_cons, hhead, List.map_cons, List.flatten_cons,
        List.flatten_cons, ihr, hb]

theorem eq_map_range_getD (l : HNode V) (n : Nat) (h : l.length = n) :
    l = (List.range n).map (fun i => l.getD i none) := by
  refine List.ext_getElem (by simp [h]) (fun i h1 h2 => ?_)
  have hi : i < n := by simpa using h2
  rw [List.getElem_map, List.getElem_range]
  rw [List.getD_eq_getElem l none (by omega)]

end CleanLemmas

section CleanMain

variable {V : Type}

theorem cleanSlots_canon (cfg : HamtConfig) (hwf : cfg.WF) (f d : Nat)
    (m : List (Nat × V)) (slots2 : HNode V)
    (hs : m.Pairwise kvLt) (hm0 : m ≠ [])
    (hcs : canonSlots
      (fun j => canonPtr cfg f (d + 1)
        (m.filter (fun e => cfg.ch e.1 d == j)))
      (List.range cfg.slots) = .ok slots2) :
    cleanSlots cfg slots2 =
      if m.length ≤ cfg.bucketCap then some (.bucket m)
      else some (.child slots2) := by
  have hlen : slots2.length = cfg.slots := by
    rw [canonSlots_length _ _ _ hcs, List.length_range]
  have hget := canonSlots_range_get cfg.slots _ slots2 hcs
  have hmap : slots2 =
      (List.range cfg.slots).map (fun i => slots2.getD i none) :=
    eq_map_range_getD slots2 cfg.slots hlen
  have hcover : ∀ e ∈ m, cfg.ch e.1 d ∈ List.range cfg.slots := by
    intro e he
    exact List.mem_range.mpr (Nat.mod_lt _ hwf.1)
  have hperm : List.Perm
      (((List.range cfg.slots).map
        (fun j => m.filter (fun e => cfg.ch e.1 d == j))).flatten) m :=
    partition_flatten_perm (fun x => cfg.ch x d) (List.range cfg.slots) m
      (List.nodup_range cfg.slots) hcover
  have hdesc : ∀ j ∈ List.range cfg.slots,
      (slots2.getD j none = none ∧
        m.filter (fun e => cfg.ch e.1 d == j) = []) ∨
      (∃ b, slots2.getD j none = some (.bucket b) ∧
        b = m.filter (fun e => cfg.ch e.1 d == j) ∧
        b.length ≠ 0 ∧ b.length ≤ cfg.bucketCap) ∨
      (∃ s, slots2.getD j none = some (.child s) ∧
        cfg.bucketCap < (m.filter (fun e => cfg.ch e.1 d == j)).length) := by
    intro j hj
    have hj2 := hget j (List.mem_range.mp hj)
    cases hGj : slots2.getD j none with
    | none =>
      rw [hGj] at hj2
      exact Or.inl ⟨rfl, canonPtr_ok_none cfg f (d + 1) _ hj2⟩
    | some p =>
      cases p with
      | bucket b =>
        rw [hGj] at hj2
        rcases canonPtr_ok_bucket cfg f (d + 1) _ b hj2 with ⟨hb, h0, hK⟩
        refine Or.inr (Or.inl ⟨b, rfl, hb, ?_, ?_⟩)
        · rw [hb]
          exact h0
        · rw [hb]
          exact hK
      | child s =>
        rw [hGj] at hj2
        rcases canonPtr_ok_child cfg f (d + 1) _ s hj2 with ⟨hK, _⟩
        exact Or.inr (Or.inr ⟨s, rfl, hK⟩)
  have hfmid : slots2.filterMap id =
      (List.range cfg.slots).filterMap (fun i => slots2.getD i none) := by
    conv_lhs => rw [hmap]
    rw [List.filterMap_map]
    rfl
  by_cases hch : ∃ j ∈ List.range cfg.slots,
      ∃ s, slots2.getD j none = some (.child s)
  · rcases hch with ⟨j0, hj0, s, hGj0⟩
    have hbig : cfg.bucketCap <
        (m.filter (fun e => cfg.ch e.1 d == j0)).length := by
      rcases hdesc j0 hj0 with ⟨hn, _⟩ | ⟨b, hb, _⟩ | ⟨s2, _, hK⟩
      · rw [hn] at hGj0
        cases hGj0
      · rw [hb] at hGj0
        cases hGj0
      · exact hK
    have hmK : cfg.bucketCap < m.length := by
      have hle : (m.filter (fun e => cfg.ch e.1 d == j0)).length ≤
          m.length := by
        have hsum : (((List.range cfg.slots).map
            (fun j => m.filter (fun e => cfg.ch e.1 d == j))).map
              List.length).sum = m.length :=
          partition_length_sum (fun x => cfg.ch x d) (List.range cfg.slots)
            m (List.nodup_range cfg.slots) hcover
        have hmem : (m.filter (fun e => cfg.ch e.1 d == j0)).length ∈
            ((List.range cfg.slots).map
              (fun j => m.filter (fun e => cfg.ch e.1 d == j))).map
                List.length := by
          refine List.mem_map.mpr ⟨m.filter (fun e => cfg.ch e.1 d == j0),
            List.mem_map.mpr ⟨j0, hj0, rfl⟩, rfl⟩
        rw [← hsum]
        exact List.single_le_sum (fun x hx => Nat.zero_le x) _ hmem
      omega
    rw [if_neg (by omega)]
    have hmem2 : HPointer.child s ∈ slots2.filterMap id := by
      rw [hfmid]
      exact List.mem_filterMap.mpr ⟨j0, hj0, hGj0⟩
    have hbo : bucketsOnly slots2 = none := by
      conv_lhs => rw [hmap]
      exact bucketsOnly_none_of_child _ _ j0 s hj0 hGj0
    cases hL : slots2.filterMap id with
    | nil =>
      rw [hL] at hmem2
      cases hmem2
    | cons q rest =>
      cases rest with
      | nil =>
        rw [hL] at hmem2
        have hq : q = .child s := by
          rcases List.mem_cons.mp hmem2 with hc | hc
          · exact hc.symm
          · cases hc
        rw [hq] at hL
        simp only [cleanSlots, hL, hbo]
      | cons q2 rest2 =>
        simp only [cleanSlots, hL, hbo]
  · have hnochild : ∀ j ∈ List.range cfg.slots, ∀ s,
        slots2.getD j none ≠ some (.child s) := by
      intro j hj s hc
      exact hch ⟨j, hj, s, hc⟩
    have hbo : bucketsOnly slots2 = some ((List.range cfg.slots).filterMap
        (fun j => bucketOf (slots2.getD j none))) := by
      conv_lhs => rw [hmap]
      exact bucketsOnly_map _ _ hnochild
    have hfm2 : slots2.filterMap id =
        ((List.range cfg.slots).filterMap
          (fun j => bucketOf (slots2.getD j none))).map HPointer.bucket := by
      rw [hfmid]
      exact filterMap_bucket_map _ _ hnochild
    have hflat : ((List.range cfg.slots).filterMap
        (fun j => bucketOf (slots2.getD j none))).flatten =
        ((List.range cfg.slots).map
          (fun j => m.filter (fun e => cfg.ch e.1 d == j))).flatten := by
      refine flatten_buckets _ _ _ (fun j hj => ?_)
      rcases hdesc j hj with ⟨hn, hF⟩ | ⟨b, hb, hbF, _⟩ | ⟨s, hcs2, _⟩
      · exact Or.inl ⟨hn, hF⟩
      · exact Or.inr ⟨b, hb, hbF⟩
      · exact absurd hcs2 (hnochild j hj s)
    have hperm2 : List.Perm ((List.range cfg.slots).filterMap
        (fun j => bucketOf (slots2.getD j none))).flatten m := by
      rw [hflat]
      exact hperm
    have hsum2 : (((List.range cfg.slots).filterMap
        (fun j => bucketOf (slots2.getD j none))).map List.length).sum =
        m.length := by
      rw [← List.length_flatten]
      exact hperm2.length_eq
    cases hbs : (List.range cfg.slots).filterMap
        (fun j => bucketOf (slots2.getD j none)) with
    | nil =>
      exfalso
      rw [hbs] at hperm2
      exact hm0 hperm2.symm.eq_nil
    | cons b1 bs2 =>
      cases bs2 with
      | nil =>
        have hb1m : b1 = m := by
          refine eq_of_perm_sorted_kv b1 m ?_ ?_ hs
          · rw [hbs] at hperm2
            simpa using hperm2
          · have hmem : b1 ∈ (List.range cfg.slots).filterMap
                (fun j => bucketOf (slots2.getD j none)) := by
              rw [hbs]
              simp
            rcases List.mem_filterMap.mp hmem with ⟨j, hj, hbo2⟩
            have := bucketOf_eq_some _ _ hbo2
            rcases hdesc j hj with ⟨hn, _⟩ | ⟨b, hb, hbF, _⟩ | ⟨s, hcs2, _⟩
            · rw [hn] at this
              cases this
            · rw [hb] at this
              cases this
              rw [hbF]
              exact hs.filter _
            · exact absurd hcs2 (hnochild j hj s)
        have hlb1 : b1.length = m.length := by rw [hb1m]
        have hKm : m.length ≤ cfg.bucketCap := by
          have hmem : b1 ∈ (List.range cfg.slots).filterMap
              (fun j => bucketOf (slots2.getD j none)) := by
            rw [hbs]
            simp
          rcases List.mem_filterMap.mp hmem with ⟨j, hj, hbo2⟩
          have hsome := bucketOf_eq_some _ _ hbo2
          rcases hdesc j hj with ⟨hn, _⟩ | ⟨b, hb, hbF, h0, hK⟩ |
            ⟨s, hcs2, _⟩
          · rw [hn] at hsome
            cases hsome
          · rw [hb] at hsome
            cases hsome
            omega
          · exact absurd hcs2 (hnochild j hj s)
        rw [if_pos hKm]
        rw [hbs] at hfm2
        simp only [List.map_cons, List.map_nil] at hfm2
        simp only [cleanSlots, hfm2, hb1m]
      | cons b2 bs3 =>
        rw [hbs] at hfm2
        simp only [List.map_cons] at hfm2
        simp only [cleanSlots, hfm2, hbo, hbs]
        rw [hbs] at hsum2
        rw [hsum2]
        by_cases hKm : m.length ≤ cfg.bucketCap
        · rw [if_pos hKm, if_pos hKm]
          have hsort : sortKV (b1 :: b2 :: bs3).flatten = m := by
            refine eq_of_perm_sorted_kv _ m ?_ (pairwise_sortKV _) hs
            have hnd : ((b1 :: b2 :: bs3).flatten.map Prod.fst).Nodup := by
              have hpermmap := (hbs ▸ hperm2).map Prod.fst
              exact hpermmap.nodup_iff.mpr (nodup_keys_of_pairwise m hs)
            exact (sortKV_perm _ hnd).trans (hbs ▸ hperm2)
          rw [hsort]
        · rw [if_neg hKm, if_neg hKm]

end CleanMain

section DelCanon

variable {V : Type}

theorem delPtr_canon_flat (cfg : HamtConfig) (fuel d : Nat)
    (sub : List (Nat × V)) (p : Option (HPointer V)) (k : Nat)
    (hs : sub.Pairwise kvLt) (hp : canonPtr cfg fuel d sub = .ok p)
    (hK : sub.length ≤ cfg.bucketCap) :
    ∃ p2, canonPtr cfg fuel d (eraseKV k sub) = .ok p2 ∧
      delPtr cfg fuel d p k =
        .ok (p2, (lookupKV k sub).map (fun v => (k, v))) := by
  by_cases h0 : sub.length = 0
  · have hsub : sub = [] := List.length_eq_zero.mp h0
    subst hsub
    rw [canonPtr_nil] at hp
    cases hp
    refine ⟨none, by rw [show eraseKV k ([] : List (Nat × V)) = [] from rfl,
      canonPtr_nil], ?_⟩
    simp [delPtr, lookupKV]
  · rw [canonPtr_bucket_of_small cfg fuel d sub h0 hK] at hp
    cases hp
    cases hlk : lookupKV k sub with
    | none =>
      refine ⟨some (.bucket sub), ?_, ?_⟩
      · rw [eraseKV_of_lookup_none k sub hlk,
          canonPtr_bucket_of_small cfg fuel d sub h0 hK]
      · simp [delPtr, hlk]
    | some v =>
      have hlen : (eraseKV k sub).length = sub.length - 1 := by
        rw [length_eraseKV, hlk]
        simp
      by_cases h2 : (eraseKV k sub).length = 0
      · refine ⟨none, ?_, ?_⟩
        · rw [List.length_eq_zero.mp h2, canonPtr_nil]
        · simp [delPtr, hlk, h2]
      · refine ⟨some (.bucket (eraseKV k sub)), ?_, ?_⟩
        · exact canonPtr_bucket_of_small cfg fuel d _ h2 (by omega)
        · simp [delPtr, hlk, h2]

theorem delPtr_canon (cfg : HamtConfig) (hwf : cfg.WF) :
    ∀ (fuel d : Nat) (sub : List (Nat × V)) (p : Option (HPointer V))
      (k : Nat),
      sub.Pairwise kvLt →
      canonPtr cfg fuel d sub = .ok p →
      ∃ p2, canonPtr cfg fuel d (eraseKV k sub) = .ok p2 ∧
        delPtr cfg fuel d p k =
          .ok (p2, (lookupKV k sub).map (fun v => (k, v))) := by
  intro fuel
  induction fuel with
  | zero =>
    intro d sub p k hs hp
    by_cases hK : sub.length ≤ cfg.bucketCap
    · exact delPtr_canon_flat cfg 0 d sub p k hs hp hK
    · exfalso
      have h0 : ¬(sub.length = 0) := by omega
      simp only [canonPtr, if_neg h0, if_neg hK] at hp
      cases hp
  | succ f ih =>
    intro d sub p k hs hp
    by_cases hK : sub.length ≤ cfg.bucketCap
    · exact delPtr_canon_flat cfg (f + 1) d sub p k hs hp hK
    · rw [canonPtr_large cfg f d sub hK] at hp
      cases hcs : canonSlots
          (fun j => canonPtr cfg f (d + 1)
            (sub.filter (fun e => cfg.ch e.1 d == j)))
          (List.range cfg.slots) with
      | error e => rw [hcs] at hp; cases hp
      | ok slots =>
        rw [hcs] at hp
        cases hp
        have hj0 : cfg.ch k d < cfg.slots := Nat.mod_lt _ hwf.1
        have hslot : canonPtr cfg f (d + 1)
            (sub.filter (fun e => cfg.ch e.1 d == cfg.ch k d)) =
            .ok (slots.getD (cfg.ch k d) none) :=
          canonSlots_range_get cfg.slots _ slots hcs (cfg.ch k d) hj0
        have hsubs : (sub.filter
            (fun e => cfg.ch e.1 d == cfg.ch k d)).Pairwise kvLt :=
          hs.filter _
        rcases ih (d + 1) (sub.filter (fun e => cfg.ch e.1 d == cfg.ch k d))
          (slots.getD (cfg.ch k d) none) k hsubs hslot with
          ⟨p2j, hcan2, hdel⟩
        have hlkf : lookupKV k
            (sub.filter (fun e => cfg.ch e.1 d == cfg.ch k d)) =
            lookupKV k sub :=
          lookupKV_filter_chunk cfg d (cfg.ch k d) k sub rfl
        cases hlk : lookupKV k sub with
        | none =>
          refine ⟨some (.child slots), ?_, ?_⟩
          · rw [eraseKV_of_lookup_none k sub hlk,
              canonPtr_large cfg f d sub hK, hcs]
          · simp only [delPtr, hdel, hlkf, hlk]
            rfl
        | some v =>
          have hK1 : 1 ≤ cfg.bucketCap := hwf.2.1
          have hlen : (eraseKV k sub).length = sub.length - 1 := by
            rw [length_eraseKV, hlk]
            simp
          have hm0 : eraseKV k sub ≠ [] := by
            intro hc
            have : (eraseKV k sub).length = 0 := by rw [hc]; rfl
            omega
          have hms : (eraseKV k sub).Pairwise kvLt := pairwise_eraseKV k sub hs
          have hcs2 : canonSlots
              (fun j => canonPtr cfg f (d + 1)
                ((eraseKV k sub).filter (fun e => cfg.ch e.1 d == j)))
              (List.range cfg.slots) =
              .ok (slots.set (cfg.ch k d) p2j) := by
            refine canonSlots_range_set cfg.slots _ _ slots
              (cfg.ch k d) p2j hcs hj0 ?_ ?_
            · rw [filter_chunk_erase_pos cfg d (cfg.ch k d) k sub rfl, hcan2]
            · intro i hi hne
              rw [filter_chunk_erase_neg cfg d i k sub
                (fun hc => hne hc.symm)]
          have hclean := cleanSlots_canon cfg hwf f d (eraseKV k sub)
            (slots.set (cfg.ch k d) p2j) hms hm0 hcs2
          by_cases hKm : (eraseKV k sub).length ≤ cfg.bucketCap
          · refine ⟨some (.bucket (eraseKV k sub)), ?_, ?_⟩
            · exact canonPtr_bucket_of_small cfg (f + 1) d _
                (by omega) hKm
            · simp only [delPtr, hdel, hlkf, hlk, Option.map_some']
              rw [hclean, if_pos hKm]
          · refine ⟨some (.child (slots.set (cfg.ch k d) p2j)), ?_, ?_⟩
            · rw [canonPtr_large cfg f d _ hKm, hcs2]
            · simp only [delPtr, hdel, hlkf, hlk, Option.map_some']
              rw [hclean, if_neg hKm]

end DelCanon

section RootCanon

variable {V : Type}

theorem set_getD_self (l : HNode V) (i : Nat) (h : i < l.length) :
    l.set i (l.getD i none) = l := by
  induction l generalizing i with
  | nil => rfl
  | cons a t ih =>
    cases i with
    | zero => simp
    | succ i' =>
      have hi : i' < t.length := by simpa using h
      show (a :: t).set (i' + 1) ((a :: t).getD (i' + 1) none) = a :: t
      rw [List.getD_cons_succ, List.set_cons_succ, ih i' hi]

theorem canonRoot_length (cfg : HamtConfig) (m : List (Nat × V)) (r : HNode V)
    (h : canonRoot cfg m = .ok r) : r.length = cfg.slots := by
  rw [canonSlots_length _ _ _ h, List.length_range]

theorem canonRoot_nil (cfg : HamtConfig) :
    canonRoot cfg ([] : List (Nat × V)) = .ok (emptyRoot cfg) := by
  have h := canonSlots_build
    (fun j => canonPtr cfg (cfg.chunks - 1) 1
      (([] : List (Nat × V)).filter (fun e => cfg.ch e.1 0 == j)))
    (fun _ => none) (List.range cfg.slots)
    (fun j hj => by
      show canonPtr cfg (cfg.chunks - 1) 1
        (([] : List (Nat × V)).filter (fun e => cfg.ch e.1 0 == j)) = .ok none
      simp only [List.filter_nil]
      exact canonPtr_nil cfg (cfg.chunks - 1) 1)
  rw [canonRoot, h]
  have : (List.range cfg.slots).map
      (fun _ => (none : Option (HPointer V))) = emptyRoot cfg := by
    simp [emptyRoot, List.eq_replicate_iff]
  rw [this]

theorem rootSet_canon (cfg : HamtConfig) [DecidableEq V] (hwf : cfg.WF)
    (m : List (Nat × V)) (r : HNode V) (k : Nat) (v : V)
    (hs : m.Pairwise kvLt) (hr : canonRoot cfg m = .ok r) :
    rootSet cfg r k v true =
      (match canonRoot cfg (insertKV k v m) with
       | .error e => .error e
       | .ok r2 =>
         .ok (r2, lookupKV k m, decide (¬(lookupKV k m = some v)))) := by
  have hj0 : cfg.ch k 0 < cfg.slots := Nat.mod_lt _ hwf.1
  have hslot : canonPtr cfg (cfg.chunks - 1) 1
      (m.filter (fun e => cfg.ch e.1 0 == cfg.ch k 0)) =
      .ok (r.getD (cfg.ch k 0) none) :=
    canonSlots_range_get cfg.slots _ r hr (cfg.ch k 0) hj0
  have hsubs : (m.filter
      (fun e => cfg.ch e.1 0 == cfg.ch k 0)).Pairwise kvLt := hs.filter _
  have hset := setPtr_canon cfg hwf (cfg.chunks - 1) 1
    (m.filter (fun e => cfg.ch e.1 0 == cfg.ch k 0))
    (r.getD (cfg.ch k 0) none) k v hsubs hslot
  have hlkf : lookupKV k
      (m.filter (fun e => cfg.ch e.1 0 == cfg.ch k 0)) = lookupKV k m :=
    lookupKV_filter_chunk cfg 0 (cfg.ch k 0) k m rfl
  have hfilpos : (insertKV k v m).filter
      (fun e => cfg.ch e.1 0 == cfg.ch k 0) =
      insertKV k v (m.filter (fun e => cfg.ch e.1 0 == cfg.ch k 0)) :=
    filter_chunk_insert_pos cfg 0 (cfg.ch k 0) k v m hs rfl
  cases hcan2 : canonPtr cfg (cfg.chunks - 1) 1
      (insertKV k v (m.filter (fun e => cfg.ch e.1 0 == cfg.ch k 0))) with
  | error e =>
    have hcs2 : canonRoot cfg (insertKV k v m) = .error e := by
      rw [canonRoot]
      refine canonSlots_range_set_error cfg.slots _ _ r
        (cfg.ch k 0) e hr hj0 ?_ ?_
      · rw [hfilpos, hcan2]
      · intro i hi hne
        rw [filter_chunk_insert_neg cfg 0 i k v m (fun hc => hne hc.symm)]
    rw [hcs2]
    rw [rootSet, hset, hcan2]
  | ok p2 =>
    have hcs2 : canonRoot cfg (insertKV k v m) =
        .ok (r.set (cfg.ch k 0) p2) := by
      rw [canonRoot]
      refine canonSlots_range_set cfg.slots _ _ r
        (cfg.ch k 0) p2 hr hj0 ?_ ?_
      · rw [hfilpos, hcan2]
      · intro i hi hne
        rw [filter_chunk_insert_neg cfg 0 i k v m (fun hc => hne hc.symm)]
    rw [hcs2]
    rw [rootSet, hset, hcan2, hlkf]

theorem rootDel_canon (cfg : HamtConfig) (hwf : cfg.WF)
    (m : List (Nat × V)) (r : HNode V) (k : Nat)
    (hs : m.Pairwise kvLt) (hr : canonRoot cfg m = .ok r) :
    ∃ r2, canonRoot cfg (eraseKV k m) = .ok r2 ∧
      rootDel cfg r k = .ok (r2, (lookupKV k m).map (fun v => (k, v))) := by
  have hj0 : cfg.ch k 0 < cfg.slots := Nat.mod_lt _ hwf.1
  have hslot : canonPtr cfg (cfg.chunks - 1) 1
      (m.filter (fun e => cfg.ch e.1 0 == cfg.ch k 0)) =
      .ok (r.getD (cfg.ch k 0) none) :=
    canonSlots_range_get cfg.slots _ r hr (cfg.ch k 0) hj0
  have hsubs : (m.filter
      (fun e => cfg.ch e.1 0 == cfg.ch k 0)).Pairwise kvLt := hs.filter _
  rcases delPtr_canon cfg hwf (cfg.chunks - 1) 1
    (m.filter (fun e => cfg.ch e.1 0 == cfg.ch k 0))
    (r.getD (cfg.ch k 0) none) k hsubs hslot with ⟨p2j, hcan2, hdel⟩
  have hlkf : lookupKV k
      (m.filter (fun e => cfg.ch e.1 0 == cfg.ch k 0)) = lookupKV k m :=
    lookupKV_filter_chunk cfg 0 (cfg.ch k 0) k m rfl
  cases hlk : lookupKV k m with
  | none =>
    refine ⟨r, ?_, ?_⟩
    · rw [eraseKV_of_lookup_none k m hlk, hr]
    · rw [rootDel, hdel, hlkf, hlk]
      rfl
  | some v =>
    refine ⟨r.set (cfg.ch k 0) p2j, ?_, ?_⟩
    · rw [canonRoot]
      refine canonSlots_range_set cfg.slots _ _ r
        (cfg.ch k 0) p2j hr hj0 ?_ ?_
      · rw [filter_chunk_erase_pos cfg 0 (cfg.ch k 0) k m rfl, hcan2]
      · intro i hi hne
        rw [filter_chunk_erase_neg cfg 0 i k m (fun hc => hne hc.symm)]
    · rw [rootDel, hdel, hlkf, hlk]
      rfl

end RootCanon

section IfAbsentCanon

variable {V : Type} [DecidableEq V]

theorem setPtr_ifAbsent_canon (cfg : HamtConfig) (hwf : cfg.WF) :
    ∀ (fuel d : Nat) (sub : List (Nat × V)) (p : Option (HPointer V))
      (k : Nat) (v : V),
      sub.Pairwise kvLt →
      canonPtr cfg fuel d sub = .ok p →
      setPtr cfg fuel d p k v false =
        (match lookupKV k sub with
         | some _ => .ok (p, none, false)
         | none =>
           match canonPtr cfg fuel d (insertKV k v sub) with
           | .error e => .error e
           | .ok p2 => .ok (p2, none, true)) := by
  intro fuel
  induction fuel with
  | zero =>
    intro d sub p k v hs hp
    by_cases hK : sub.length ≤ cfg.bucketCap
    · by_cases h0 : sub.length = 0
      · have hsub : sub = [] := List.length_eq_zero.mp h0
        subst hsub
        rw [canonPtr_nil] at hp
        cases hp
        rw [show insertKV k v ([] : List (Nat × V)) = [(k, v)] from rfl,
          canonPtr_bucket_of_small cfg 0 d [(k, v)] (by simp)
            (by simpa using hwf.2.1)]
        simp [setPtr, lookupKV]
      · rw [canonPtr_bucket_of_small cfg 0 d sub h0 hK] at hp
        cases hp
        cases hlk : lookupKV k sub with
        | some old => simp [setPtr, hlk]
        | none =>
          by_cases hroom : sub.length < cfg.bucketCap
          · have hlen : (insertKV k v sub).length = sub.length + 1 := by
              rw [length_insertKV k v sub hs, hlk]
              simp
            rw [canonPtr_bucket_of_small cfg 0 d (insertKV k v sub)
              (by omega) (by omega)]
            simp [setPtr, hlk, hroom]
          · simp only [setPtr, hlk, if_neg hroom]
    · exfalso
      have h0 : ¬(sub.length = 0) := by omega
      simp only [canonPtr, if_neg h0, if_neg hK] at hp
      cases hp
  | succ f ih =>
    intro d sub p k v hs hp
    by_cases hK : sub.length ≤ cfg.bucketCap
    · by_cases h0 : sub.length = 0
      · have hsub : sub = [] := List.length_eq_zero.mp h0
        subst hsub
        rw [canonPtr_nil] at hp
        cases hp
        rw [show insertKV k v ([] : List (Nat × V)) = [(k, v)] from rfl,
          canonPtr_bucket_of_small cfg (f + 1) d [(k, v)] (by simp)
            (by simpa using hwf.2.1)]
        simp [setPtr, lookupKV]
      · rw [canonPtr_bucket_of_small cfg (f + 1) d sub h0 hK] at hp
        cases hp
        cases hlk : lookupKV k sub with
        | some old => simp [setPtr, hlk]
        | none =>
          by_cases hroom : sub.length < cfg.bucketCap
          · have hlen : (insertKV k v sub).length = sub.length + 1 := by
              rw [length_insertKV k v sub hs, hlk]
              simp
            rw [canonPtr_bucket_of_small cfg (f + 1) d (insertKV k v sub)
              (by omega) (by omega)]
            simp [setPtr, hlk, hroom]
          · simp only [setPtr, hlk, if_neg hroom]
    · rw [canonPtr_large cfg f d sub hK] at hp
      cases hcs : canonSlots
          (fun j => canonPtr cfg f (d + 1)
            (sub.filter (fun e => cfg.ch e.1 d == j)))
          (List.range cfg.slots) with
      | error e => rw [hcs] at hp; cases hp
      | ok slots =>
        rw [hcs] at hp
        cases hp
        have hj0 : cfg.ch k d < cfg.slots := Nat.mod_lt _ hwf.1
        have hlenslots : slots.length = cfg.slots := by
          rw [canonSlots_length _ _ _ hcs, List.length_range]
        have hslot : canonPtr cfg f (d + 1)
            (sub.filter (fun e => cfg.ch e.1 d == cfg.ch k d)) =
            .ok (slots.getD (cfg.ch k d) none) :=
          canonSlots_range_get cfg.slots _ slots hcs (cfg.ch k d) hj0
        have hsubs : (sub.filter
            (fun e => cfg.ch e.1 d == cfg.ch k d)).Pairwise kvLt :=
          hs.filter _
        have hrec := ih (d + 1)
          (sub.filter (fun e => cfg.ch e.1 d == cfg.ch k d))
          (slots.getD (cfg.ch k d) none) k v hsubs hslot
        have hlkf : lookupKV k
            (sub.filter (fun e => cfg.ch e.1 d == cfg.ch k d)) =
            lookupKV k sub :=
          lookupKV_filter_chunk cfg d (cfg.ch k d) k sub rfl
        cases hlk : lookupKV k sub with
        | some old =>
          rw [hlk] at hlkf
          simp only [setPtr, hrec, hlkf]
          rw [set_getD_self slots (cfg.ch k d) (by omega)]
        | none =>
          rw [hlk] at hlkf
          have hfilpos : (insertKV k v sub).filter
              (fun e => cfg.ch e.1 d == cfg.ch k d) =
              insertKV k v
                (sub.filter (fun e => cfg.ch e.1 d == cfg.ch k d)) :=
            filter_chunk_insert_pos cfg d (cfg.ch k d) k v sub hs rfl
          have hlen2 : ¬((insertKV k v sub).length ≤ cfg.bucketCap) := by
            rw [length_insertKV k v sub hs]
            by_cases hsome : (lookupKV k sub).isSome = true
            · rw [if_pos hsome]
              omega
            · rw [if_neg hsome]
              omega
          rw [canonPtr_large cfg f d (insertKV k v sub) hlen2]
          cases hcan2 : canonPtr cfg f (d + 1)
              (insertKV k v (sub.filter
                (fun e => cfg.ch e.1 d == cfg.ch k d))) with
          | error e =>
            have hcs2 : canonSlots
                (fun j => canonPtr cfg f (d + 1)
                  ((insertKV k v sub).filter (fun e => cfg.ch e.1 d == j)))
                (List.range cfg.slots) = .error e := by
              refine canonSlots_range_set_error cfg.slots _ _ slots
                (cfg.ch k d) e hcs hj0 ?_ ?_
              · rw [hfilpos, hcan2]
              · intro i hi hne
                rw [filter_chunk_insert_neg cfg d i k v sub
                  (fun hc => hne hc.symm)]
            rw [hcs2]
            simp only [setPtr]
            rw [hrec, hlkf, hcan2]
          | ok p2 =>
            have hcs2 : canonSlots
                (fun j => canonPtr cfg f (d + 1)
                  ((insertKV k v sub).filter (fun e => cfg.ch e.1 d == j)))
                (List.range cfg.slots) =
                .ok (slots.set (cfg.ch k d) p2) := by
              refine canonSlots_range_set cfg.slots _ _ slots
                (cfg.ch k d) p2 hcs hj0 ?_ ?_
              · rw [hfilpos, hcan2]
              · intro i hi hne
                rw [filter_chunk_insert_neg cfg d i k v sub
                  (fun hc => hne hc.symm)]
            rw [hcs2]
            simp only [setPtr]
            rw [hrec, hlkf, hcan2]

theorem rootSet_ifAbsent_canon (cfg : HamtConfig) (hwf : cfg.WF)
    (m : List (Nat × V)) (r : HNode V) (k : Nat) (v : V)
    (hs : m.Pairwise kvLt) (hr : canonRoot cfg m = .ok r) :
    rootSet cfg r k v false =
      (match lookupKV k m with
       | some _ => .ok (r, none, false)
       | none =>
         match canonRoot cfg (insertKV k v m) with
         | .error e => .error e
         | .ok r2 => .ok (r2, none, true)) := by
  have hj0 : cfg.ch k 0 < cfg.slots := Nat.mod_lt _ hwf.1
  have hlenr : r.length = cfg.slots := canonRoot_length cfg m r hr
  have hslot : canonPtr cfg (cfg.chunks - 1) 1
      (m.filter (fun e => cfg.ch e.1 0 == cfg.ch k 0)) =
      .ok (r.getD (cfg.ch k 0) none) :=
    canonSlots_range_get cfg.slots _ r hr (cfg.ch k 0) hj0
  have hsubs : (m.filter
      (fun e => cfg.ch e.1 0 == cfg.ch k 0)).Pairwise kvLt := hs.filter _
  have hset := setPtr_ifAbsent_canon cfg hwf (cfg.chunks - 1) 1
    (m.filter (fun e => cfg.ch e.1 0 == cfg.ch k 0))
    (r.getD (cfg.ch k 0) none) k v hsubs hslot
  have hlkf : lookupKV k
      (m.filter (fun e => cfg.ch e.1 0 == cfg.ch k 0)) = lookupKV k m :=
    lookupKV_filter_chunk cfg 0 (cfg.ch k 0) k m rfl
  cases hlk : lookupKV k m with
  | some old =>
    rw [hlk] at hlkf
    rw [rootSet, hset, hlkf]
    simp only []
    rw [set_getD_self r (cfg.ch k 0) (by omega)]
  | none =>
    rw [hlk] at hlkf
    have hfilpos : (insertKV k v m).filter
        (fun e => cfg.ch e.1 0 == cfg.ch k 0) =
        insertKV k v (m.filter (fun e => cfg.ch e.1 0 == cfg.ch k 0)) :=
      filter_chunk_insert_pos cfg 0 (cfg.ch k 0) k v m hs rfl
    cases hcan2 : canonPtr cfg (cfg.chunks - 1) 1
        (insertKV k v (m.filter
          (fun e => cfg.ch e.1 0 == cfg.ch k 0))) with
    | error e =>
      have hcs2 : canonRoot cfg (insertKV k v m) = .error e := by
        rw [canonRoot]
        refine canonSlots_range_set_error cfg.slots _ _ r
          (cfg.ch k 0) e hr hj0 ?_ ?_
        · rw [hfilpos, hcan2]
        · intro i hi hne
          rw [filter_chunk_insert_neg cfg 0 i k v m (fun hc => hne hc.symm)]
      rw [hcs2, rootSet, hset, hlkf, hcan2]
    | ok p2 =>
      have hcs2 : canonRoot cfg (insertKV k v m) =
          .ok (r.set (cfg.ch k 0) p2) := by
        rw [canonRoot]
        refine canonSlots_range_set cfg.slots _ _ r
          (cfg.ch k 0) p2 hr hj0 ?_ ?_
        · rw [hfilpos, hcan2]
        · intro i hi hne
          rw [filter_chunk_insert_neg cfg 0 i k v m (fun hc => hne hc.symm)]
      rw [hcs2, rootSet, hset, hlkf, hcan2]

end IfAbsentCanon

section HamtInvariant

variable {V : Type} [DecidableEq V]

/-- Applying mutations keeps the root canonical for the modelled map and
leaves `flushed_cid` empty if it was empty. -/
theorem applyHOps_canon (cfg : HamtConfig) (hwf : cfg.WF) :
    ∀ (ops : List (HOp V)) (m : List (Nat × V)) (h h2 : Hamt V),
      m.Pairwise kvLt →
      canonRoot cfg m = .ok h.root →
      h.flushedCid = none →
      applyHOps cfg ops h = .ok h2 →
      (modelHOps ops m).Pairwise kvLt ∧
        canonRoot cfg (modelHOps ops m) = .ok h2.root ∧
        h2.flushedCid = none := by
  intro ops
  induction ops with
  | nil =>
    intro m h h2 hs hr hf happ
    simp only [applyHOps] at happ
    cases happ
    exact ⟨hs, hr, hf⟩
  | cons op rest ih =>
    intro m h h2 hs hr hf happ
    cases op with
    | set k v =>
      simp only [applyHOps, applyHOp, Hamt.set] at happ
      rw [rootSet_canon cfg hwf m h.root k v hs hr] at happ
      cases hcan : canonRoot cfg (insertKV k v m) with
      | error e =>
        rw [hcan] at happ
        cases happ
      | ok r2 =>
        rw [hcan] at happ
        simp only [] at happ
        have hnext : applyHOps cfg rest
            ({ root := r2,
               flushedCid :=
                 if decide (¬(lookupKV k m = some v)) then none
                 else h.flushedCid } : Hamt V) = .ok h2 := happ
        have hfc : (if decide (¬(lookupKV k m = some v)) then none
            else h.flushedCid) = (none : Option (HNode V)) := by
          rw [hf]
          by_cases hd : decide (¬(lookupKV k m = some v)) = true
          · rw [if_pos hd]
          · rw [if_neg hd]
        rw [hfc] at hnext
        have := ih (insertKV k v m)
          ({ root := r2, flushedCid := none } : Hamt V) h2
          (pairwise_insertKV k v m hs) hcan rfl hnext
        simpa [modelHOps] using this
    | del k =>
      simp only [applyHOps, applyHOp, Hamt.delete] at happ
      rcases rootDel_canon cfg hwf m h.root k hs hr with ⟨r2, hcan, hdel⟩
      rw [hdel] at happ
      simp only [] at happ
      have hfc : (if ((lookupKV k m).map
          (fun v => (k, v))).isSome then none
          else h.flushedCid) = (none : Option (HNode V)) := by
        rw [hf]
        by_cases hd : ((lookupKV k m).map (fun v => (k, v))).isSome = true
        · rw [if_pos hd]
        · rw [if_neg hd]
      rw [hfc] at happ
      have := ih (eraseKV k m)
        ({ root := r2, flushedCid := none } : Hamt V) h2
        (pairwise_eraseKV k m hs) hcan rfl happ
      simpa [modelHOps] using this

end HamtInvariant

section ClaimC2

variable {V : Type} [DecidableEq V]

/-- C2: For every set of inserts and deletes applied to an empty HAMT, the
CID returned by `flush` depends only on the final key/value set, not on the
order in which the inserts and deletes were applied: any two HAMTs built
from an empty tree that hold identical key/value sets flush to identical
CIDs. -/
theorem hamt_flush_order_independent (cfg : HamtConfig) (hwf : cfg.WF)
    (ops1 ops2 : List (HOp V)) (t1 t2 : Hamt V)
    (log1 log2 : List (HNode V))
    (h1 : applyHOps cfg ops1 (Hamt.new cfg) = .ok t1)
    (h2 : applyHOps cfg ops2 (Hamt.new cfg) = .ok t2)
    (hsame : ∀ k, lookupKV k (modelHOps ops1 []) =
      lookupKV k (modelHOps ops2 [])) :
    (Hamt.flush cfg t1 log1).1 = (Hamt.flush cfg t2 log2).1 := by
  have hnew : canonRoot cfg ([] : List (Nat × V)) = .ok (Hamt.new cfg).root :=
    canonRoot_nil cfg
  rcases applyHOps_canon cfg hwf ops1 [] (Hamt.new cfg) t1 (by simp)
    hnew rfl h1 with ⟨hs1, hr1, hf1⟩
  rcases applyHOps_canon cfg hwf ops2 [] (Hamt.new cfg) t2 (by simp)
    hnew rfl h2 with ⟨hs2, hr2, hf2⟩
  have hmeq : modelHOps ops1 ([] : List (Nat × V)) = modelHOps ops2 [] :=
    ext_sorted_kv _ _ hs1 hs2 hsame
  have hroot : t1.root = t2.root := by
    rw [hmeq] at hr1
    rw [hr1] at hr2
    exact Except.ok.inj hr2
  rw [Hamt.flush, Hamt.flush, hf1, hf2, hroot]

end ClaimC2

/-- Witness for C2 at a concrete input: both insertion orders succeed,
build the same tree, and flush to the same CID. -/
theorem hamt_flush_order_independent_witness :
    applyHOps cfgW opsW1 (Hamt.new cfgW) = .ok treeW ∧
    applyHOps cfgW opsW2 (Hamt.new cfgW) = .ok treeW ∧
    (Hamt.flush cfgW treeW []).1 = (Hamt.flush cfgW treeW []).1 :=
  ⟨rfl, rfl,
    hamt_flush_order_independent cfgW (by refine ⟨?_, ?_, ?_⟩ <;> decide)
      opsW1 opsW2 treeW treeW [] [] rfl rfl (fun k => rfl)⟩

section ClaimC6

variable {V : Type} [DecidableEq V]

/-- C6: Two successive `Hamt::flush` calls with no intervening mutation
return the same CID and the second performs no block-store writes; a `set`
that modifies, a `set_if_absent` that inserts, and a `delete` that removes
clear `flushed_cid` (while non-modifying calls leave it alone); and between
mutations `flush` returns the cached `flushed_cid` unchanged. -/
theorem hamt_flush_idempotent (cfg : HamtConfig) (hwf : cfg.WF) :
    (∀ (h : Hamt V) (log : List (HNode V)),
      (Hamt.flush cfg (Hamt.flush cfg h log).2.1
        (Hamt.flush cfg h log).2.2).1 = (Hamt.flush cfg h log).1 ∧
      (Hamt.flush cfg (Hamt.flush cfg h log).2.1
        (Hamt.flush cfg h log).2.2).2.2 = (Hamt.flush cfg h log).2.2) ∧
    (∀ (h : Hamt V) (c : HNode V) (log : List (HNode V)),
      h.flushedCid = some c → Hamt.flush cfg h log = (c, h, log)) ∧
    (∀ (m : List (Nat × V)) (h h2 : Hamt V) (k : Nat) (v : V)
      (old : Option V),
      m.Pairwise kvLt → canonRoot cfg m = .ok h.root →
      Hamt.set cfg h k v = .ok (h2, old) →
      (¬(lookupKV k m = some v) → h2.flushedCid = none) ∧
      (lookupKV k m = some v → h2.flushedCid = h.flushedCid)) ∧
    (∀ (m : List (Nat × V)) (h h2 : Hamt V) (k : Nat) (v : V) (ins : Bool),
      m.Pairwise kvLt → canonRoot cfg m = .ok h.root →
      Hamt.setIfAbsent cfg h k v = .ok (h2, ins) →
      (lookupKV k m = none → h2.flushedCid = none ∧ ins = true) ∧
      (∀ w, lookupKV k m = some w →
        h2.flushedCid = h.flushedCid ∧ ins = false)) ∧
    (∀ (m : List (Nat × V)) (h h2 : Hamt V) (k : Nat)
      (rem : Option (Nat × V)),
      m.Pairwise kvLt → canonRoot cfg m = .ok h.root →
      Hamt.delete cfg h k = .ok (h2, rem) →
      ((lookupKV k m).isSome → h2.flushedCid = none) ∧
      (lookupKV k m = none → h2.flushedCid = h.flushedCid)) := by
  refine ⟨?_, ?_, ?_, ?_, ?_⟩
  · intro h log
    cases hf : h.flushedCid with
    | some c => simp [Hamt.flush, hf]
    | none => simp [Hamt.flush, hf]
  · intro h c log hf
    simp [Hamt.flush, hf]
  · intro m h h2 k v old hs hr hset
    rw [Hamt.set, rootSet_canon cfg hwf m h.root k v hs hr] at hset
    cases hcan : canonRoot cfg (insertKV k v m) with
    | error e =>
      rw [hcan] at hset
      cases hset
    | ok r2 =>
      rw [hcan] at hset
      simp only [] at hset
      cases hset
      constructor
      · intro hne
        simp [hne]
      · intro heq
        simp [heq]
  · intro m h h2 k v ins hs hr hset
    rw [Hamt.setIfAbsent, rootSet_ifAbsent_canon cfg hwf m h.root k v hs hr]
      at hset
    constructor
    · intro hnone
      rw [hnone] at hset
      cases hcan : canonRoot cfg (insertKV k v m) with
      | error e =>
        rw [hcan] at hset
        cases hset
      | ok r2 =>
        rw [hcan] at hset
        simp only [] at hset
        cases hset
        exact ⟨rfl, rfl⟩
    · intro w hsome
      rw [hsome] at hset
      simp only [] at hset
      cases hset
      exact ⟨rfl, rfl⟩
  · intro m h h2 k rem hs hr hdel
    rcases rootDel_canon cfg hwf m h.root k hs hr with ⟨r2, hcan, hrd⟩
    rw [Hamt.delete, hrd] at hdel
    simp only [] at hdel
    cases hdel
    constructor
    · intro hsome
      rcases Option.isSome_iff_exists.mp hsome with ⟨v, hv⟩
      simp [hv]
    · intro hnone
      simp [hnone]

end ClaimC6

/-- Witness for C6 at concrete inputs: on the one-entry tree holding
`1 ↦ 10`, a repeated flush returns the same CID with no writes, an
overwriting `set` clears the cached CID, a `set_if_absent` on the present
key keeps it, and a `delete` of the present key clears it. -/
theorem hamt_flush_idempotent_witness :
    ((Hamt.flush cfgW (Hamt.flush cfgW treeW []).2.1
      (Hamt.flush cfgW treeW []).2.2).1 = (Hamt.flush cfgW treeW []).1) ∧
    (Hamt.set cfgW treeW 1 99 =
      .ok (⟨[none, some (.child [some (.bucket [(1, 99)]),
        some (.bucket [(3, 30)])])], none⟩, some 10)) ∧
    (⟨[none, some (.child [some (.bucket [(1, 99)]),
      some (.bucket [(3, 30)])])], none⟩ : Hamt Nat).flushedCid = none := by
  refine ⟨?_, rfl, ?_⟩
  · exact ((hamt_flush_idempotent cfgW
      (by refine ⟨?_, ?_, ?_⟩ <;> decide)).1 treeW []).1
  · have hset : Hamt.set cfgW treeW 1 99 =
        .ok (⟨[none, some (.child [some (.bucket [(1, 99)]),
          some (.bucket [(3, 30)])])], none⟩, some 10) := rfl
    have hmodel : canonRoot cfgW [(1, 10), (3, 30)] = .ok treeW.root := rfl
    exact ((hamt_flush_idempotent cfgW
      (by refine ⟨?_, ?_, ?_⟩ <;> decide)).2.2.1 [(1, 10), (3, 30)]
      treeW _ 1 99 (some 10) (by decide) hmodel hset).1 (by decide)

section AListLemmas

variable {K A : Type} [DecidableEq K]

theorem lookupA_insertA_self (k : K) (v : A) (l : List (K × A)) :
    lookupA k (insertA k v l) = some v := by
  induction l with
  | nil => simp [insertA, lookupA]
  | cons e t ih =>
    by_cases h : e.1 = k
    · simp [insertA, lookupA, h]
    · simp only [insertA, if_neg h, lookupA, if_neg h, ih]

theorem lookupA_insertA_ne (k j : K) (v : A) (l : List (K × A))
    (hne : j ≠ k) : lookupA j (insertA k v l) = lookupA j l := by
  have hkj : ¬(k = j) := fun h => hne h.symm
  induction l with
  | nil => simp [insertA, lookupA, hkj]
  | cons e t ih =>
    by_cases h : e.1 = k
    · simp only [insertA, if_pos h, lookupA, if_neg hkj]
      rw [if_neg (show ¬(e.1 = j) by rw [h]; exact hkj)]
    · simp only [insertA, if_neg h, lookupA, ih]

theorem insertA_insertA_self (k : K) (v w : A) (l : List (K × A))
    (hl : lookupA k l = some w) : insertA k w (insertA k v l) = l := by
  induction l with
  | nil => simp [lookupA] at hl
  | cons e t ih =>
    by_cases h : e.1 = k
    · simp only [lookupA, if_pos h] at hl
      cases hl
      simp only [insertA, if_pos h, if_pos rfl]
      calc (k, e.2) :: t = (e.1, e.2) :: t := by rw [h]
        _ = e :: t := by simp
    · simp only [lookupA, if_neg h] at hl
      simp only [insertA, if_neg h, ih hl]

theorem removeA_insertA (k : K) (v : A) (l : List (K × A))
    (hl : lookupA k l = none) : removeA k (insertA k v l) = l := by
  induction l with
  | nil => simp [insertA, removeA]
  | cons e t ih =>
    simp only [lookupA] at hl
    by_cases h : e.1 = k
    · simp [h] at hl
    · rw [if_neg h] at hl
      simp only [insertA, if_neg h, removeA, if_neg h, ih hl]

end AListLemmas

section HistoryMapLemmas

variable {K A : Type} [DecidableEq K]

/-- Rollback to a height at or past the current history is a no-op. -/
theorem rollback_noop (m : HistoryMap K A) (h : Nat)
    (hh : m.historyLen ≤ h) : m.rollback h = m := by
  rw [HistoryMap.rollback, if_pos (show m.history.length ≤ h from hh)]

/-- Rolling back one cache mutation restores the map exactly. -/
theorem rollback_applyHMOp (m : HistoryMap K A) (op : HMOp K A) :
    (applyHMOp m op).rollback m.historyLen = m := by
  obtain ⟨map, hist⟩ := m
  cases op with
  | ins k v =>
    show (HistoryMap.rollback
      ⟨insertA k v map, hist ++ [(k, lookupA k map)]⟩ hist.length) = _
    rw [HistoryMap.rollback]
    rw [if_neg (by simp)]
    simp only [List.drop_left, List.take_left]
    cases hlk : lookupA k map with
    | some w =>
      simp only [List.foldr, undoOne, insertA_insertA_self k v w map hlk]
    | none =>
      simp only [List.foldr, undoOne, removeA_insertA k v map hlk]
  | tryIns k v =>
    show (HistoryMap.rollback (applyHMOp ⟨map, hist⟩ (.tryIns k v))
      hist.length) = _
    rw [applyHMOp]
    cases hlk : lookupA k map with
    | some w =>
      exact rollback_noop _ _ (Nat.le_refl _)
    | none =>
      rw [HistoryMap.rollback]
      rw [if_neg (by simp)]
      simp only [List.drop_left, List.take_left]
      simp only [List.foldr, undoOne, removeA_insertA k v map hlk]

/-- Rollback below the current height, in the record form used for
rewriting. -/
theorem rollback_mk (map : List (K × A)) (hist : List (K × Option A))
    (h : Nat) (hh : h < hist.length) :
    HistoryMap.rollback ⟨map, hist⟩ h =
      ⟨(hist.drop h).foldr undoOne map, hist.take h⟩ := by
  rw [HistoryMap.rollback]
  rw [if_neg (show ¬(hist.length ≤ h) by omega)]

/-- Rollback factors through any intermediate height. -/
theorem rollback_rollback (m : HistoryMap K A) (h h2 : Nat) (hle : h ≤ h2) :
    (m.rollback h2).rollback h = m.rollback h := by
  obtain ⟨map, hist⟩ := m
  by_cases hbig : hist.length ≤ h2
  · rw [rollback_noop ⟨map, hist⟩ h2 hbig]
  · have h2lt : h2 < hist.length := by omega
    rw [rollback_mk map hist h2 h2lt]
    by_cases heq : h2 ≤ h
    · have hhh : h = h2 := by omega
      subst hhh
      rw [rollback_noop ⟨(hist.drop h).foldr undoOne map, hist.take h⟩ h
          (by
            show (hist.take h).length ≤ h
            rw [List.length_take]
            omega),
        rollback_mk map hist h (by omega)]
    · have hlt : h < h2 := by omega
      have hh2 : h < (hist.take h2).length := by
        rw [List.length_take]
        omega
      rw [rollback_mk _ (hist.take h2) h hh2,
        rollback_mk map hist h (by omega)]
      have hsplit : hist.drop h =
          (hist.take h2).drop h ++ hist.drop h2 := by
        rw [List.drop_take]
        have h2d : hist.drop h2 = (hist.drop h).drop (h2 - h) := by
          rw [List.drop_drop]
          congr 1
          omega
        rw [h2d, List.take_append_drop]
      have hmap : ((hist.take h2).drop h).foldr undoOne
          ((hist.drop h2).foldr undoOne map) =
          (hist.drop h).foldr undoOne map := by
        rw [hsplit, List.foldr_append]
      have htk : (hist.take h2).take h = hist.take h := by
        rw [List.take_take]
        congr 1
        omega
      rw [hmap, htk]

/-- Length of the history never shrinks under cache mutations. -/
theorem historyLen_applyHMOp (m : HistoryMap K A) (op : HMOp K A) :
    m.historyLen ≤ (applyHMOp m op).historyLen := by
  cases op with
  | ins k v => simp [applyHMOp, HistoryMap.insert, HistoryMap.historyLen]
  | tryIns k v =>
    rw [applyHMOp]
    cases lookupA k m.map with
    | some w => exact Nat.le_refl _
    | none => simp [HistoryMap.historyLen]

/-- Rolling back to the history height recorded before a sequence of
cache mutations restores the map exactly. -/
theorem rollback_applyHMOps (ops : List (HMOp K A)) :
    ∀ (m : HistoryMap K A),
      (applyHMOps ops m).rollback m.historyLen = m := by
  induction ops with
  | nil =>
    intro m
    exact rollback_noop m m.historyLen (Nat.le_refl _)
  | cons op rest ih =>
    intro m
    show (applyHMOps rest (applyHMOp m op)).rollback m.historyLen = m
    rw [← rollback_rollback (applyHMOps rest (applyHMOp m op))
      m.historyLen (applyHMOp m op).historyLen (historyLen_applyHMOp m op)]
    rw [ih (applyHMOp m op)]
    exact rollback_applyHMOp m op

end HistoryMapLemmas

/-- C8: `rollback(h)` is a no-op whenever `history_len() ≤ h`, and
otherwise restores the map to exactly its contents at the moment the
history had length `h` (here: before any subsequent sequence of cache
mutations); in particular, on an empty map,
`insert(1,"foo"); insert(2,"bar"); insert(1,"baz"); rollback(2)` yields
`get(1) = "foo"` and `get(2) = "bar"`, and a further `rollback(0)` yields
the empty map. -/
theorem historyMap_rollback_correct :
    (∀ (K A : Type) [DecidableEq K] (m : HistoryMap K A) (h : Nat),
      m.historyLen ≤ h → m.rollback h = m) ∧
    (∀ (K A : Type) [DecidableEq K] (ops : List (HMOp K A))
      (m : HistoryMap K A),
      (applyHMOps ops m).rollback m.historyLen = m) ∧
    ((hmW.rollback 2).get 1 = some "foo" ∧
     (hmW.rollback 2).get 2 = some "bar" ∧
     ((hmW.rollback 2).rollback 0).map = [] ∧
     ((hmW.rollback 2).rollback 0).get 1 = none) := by
  refine ⟨?_, ?_, rfl, rfl, rfl, rfl⟩
  · intro K A inst m h hh
    exact rollback_noop m h hh
  · intro K A inst ops m
    exact rollback_applyHMOps ops m

/-- Witness for C8's quantified clauses at concrete inputs. -/
theorem historyMap_rollback_correct_witness :
    hmW.historyLen ≤ 5 ∧ hmW.rollback 5 = hmW ∧
    (applyHMOps [HMOp.ins 7 "x", HMOp.tryIns 1 "y"] hmW).rollback
      hmW.historyLen = hmW :=
  ⟨by decide,
   historyMap_rollback_correct.1 Nat String hmW 5 (by decide),
   historyMap_rollback_correct.2.1 Nat String
     [HMOp.ins 7 "x", HMOp.tryIns 1 "y"] hmW⟩

/-- C3: while the state tree is read-only (`read_only_layers > 0`), both
`set_actor` and `delete_actor` return the recoverable `ReadOnly` syscall
error and return the state tree unchanged (so the actor cache, the resolve
cache and the HAMT are all unchanged). -/
theorem readonly_set_delete_unchanged (st : StateTreeM) (id : Nat)
    (a : ActorStateM) (h : st.isReadOnly = true) :
    setActorOp st id a =
      (.error (.syscall .readOnly "cannot mutate state while in read-only mode"),
       st) ∧
    deleteActorOp st id =
      (.error (.syscall .readOnly "cannot mutate state while in read-only mode"),
       st) ∧
    (ExecErrM.syscall .readOnly
      "cannot mutate state while in read-only mode").recoverable = true := by
  refine ⟨?_, ?_, rfl⟩ <;>
    simp [setActorOp, deleteActorOp, assertWritable, h]

/-- Witness for C3 on a fresh tree inside a `begin_transaction(true)`
frame. -/
theorem readonly_set_delete_unchanged_witness :
    setActorOp (beginTransactionOp stW0 true) 5 actorW =
      (.error (.syscall .readOnly "cannot mutate state while in read-only mode"),
       beginTransactionOp stW0 true) ∧
    deleteActorOp (beginTransactionOp stW0 true) 5 =
      (.error (.syscall .readOnly "cannot mutate state while in read-only mode"),
       beginTransactionOp stW0 true) :=
  ⟨(readonly_set_delete_unchanged (beginTransactionOp stW0 true) 5 actorW
      rfl).1,
   (readonly_set_delete_unchanged (beginTransactionOp stW0 true) 5 actorW
      rfl).2.1⟩

/-- C7: in a writable tree, `set_actor(id, s)` succeeds and a following
`get_actor(id)` (no intervening flush or rollback) returns `Some s` and
changes nothing further; likewise `delete_actor(id)` succeeds and a
following `get_actor(id)` returns `None`. -/
theorem set_actor_get_actor_coherent (cfg : HamtConfig) (st : StateTreeM)
    (id : Nat) (s : ActorStateM) (h : st.isReadOnly = false) :
    (setActorOp st id s).1 = .ok () ∧
    getActorOp cfg (setActorOp st id s).2 id =
      (.ok (some s), (setActorOp st id s).2) ∧
    (deleteActorOp st id).1 = .ok () ∧
    getActorOp cfg (deleteActorOp st id).2 id =
      (.ok none, (deleteActorOp st id).2) := by
  have hset : setActorOp st id s =
      (.ok (), { st with actorCache :=
        st.actorCache.insert id { actor := some s, dirty := true } }) := by
    simp [setActorOp, assertWritable, h]
  have hdel : deleteActorOp st id =
      (.ok (), { st with actorCache :=
        st.actorCache.insert id { dirty := true, actor := none } }) := by
    simp [deleteActorOp, assertWritable, h]
  refine ⟨by rw [hset], ?_, by rw [hdel], ?_⟩
  · rw [hset]
    simp [getActorOp, HistoryMap.getOrTryInsertWith, HistoryMap.insert,
      lookupA_insertA_self]
  · rw [hdel]
    simp [getActorOp, HistoryMap.getOrTryInsertWith, HistoryMap.insert,
      lookupA_insertA_self]

/-- Witness for C7 on a fresh writable tree. -/
theorem set_actor_get_actor_coherent_witness :
    (setActorOp stW0 5 actorW).1 = .ok () ∧
    getActorOp cfgW (setActorOp stW0 5 actorW).2 5 =
      (.ok (some actorW), (setActorOp stW0 5 actorW).2) ∧
    (deleteActorOp stW0 5).1 = .ok () ∧
    getActorOp cfgW (deleteActorOp stW0 5).2 5 =
      (.ok none, (deleteActorOp stW0 5).2) :=
  set_actor_get_actor_coherent cfgW stW0 5 actorW rfl

theorem endFinishOp_inTransaction (s : StateTreeM) :
    (endFinishOp s).inTransaction = s.inTransaction := by
  unfold endFinishOp
  split <;> rfl

theorem endFinishOp_histLen_zero (s : StateTreeM)
    (h : (endFinishOp s).inTransaction = false) :
    (endFinishOp s).actorCache.historyLen = 0 ∧
    (endFinishOp s).resolveCache.historyLen = 0 := by
  rw [endFinishOp_inTransaction] at h
  unfold endFinishOp
  rw [if_neg (by rw [h]; exact Bool.false_ne_true)]
  exact ⟨rfl, rfl⟩

/-- C9: when `end_transaction` succeeds and leaves the tree outside any
transaction (no snapshot layers and no read-only layers), both the actor
cache and the resolve cache report `history_len() = 0`: the undo history
has been discarded. -/
theorem outermost_end_discards_history (st : StateTreeM) (revert : Bool)
    (st2 : StateTreeM)
    (h : endTransactionOp st revert = (.ok (), st2))
    (hout : st2.inTransaction = false) :
    st2.actorCache.historyLen = 0 ∧ st2.resolveCache.historyLen = 0 := by
  unfold endTransactionOp at h
  by_cases hro : st.isReadOnly = true
  · rw [if_pos hro] at h
    have h2 := congrArg Prod.snd h
    simp only at h2
    subst h2
    exact endFinishOp_histLen_zero _ hout
  · rw [if_neg hro] at h
    match hl : st.layers with
    | [] =>
      rw [hl] at h
      exact absurd (congrArg Prod.fst h) (by simp)
    | layer :: rest =>
      rw [hl] at h
      have h2 := congrArg Prod.snd h
      simp only at h2
      subst h2
      exact endFinishOp_histLen_zero _ hout

/-- Witness for C9: ending the outermost transaction of `stW1` leaves both
histories empty. -/
theorem outermost_end_discards_history_witness :
    (endTransactionOp stW1 false).2.actorCache.historyLen = 0 ∧
    (endTransactionOp stW1 false).2.resolveCache.historyLen = 0 :=
  outermost_end_discards_history stW1 false (endTransactionOp stW1 false).2
    rfl rfl

theorem applyHMOps_append {K A : Type} [DecidableEq K]
    (l1 l2 : List (HMOp K A)) (m : HistoryMap K A) :
    applyHMOps (l1 ++ l2) m = applyHMOps l2 (applyHMOps l1 m) := by
  induction l1 generalizing m with
  | nil => rfl
  | cons op t ih =>
    simp only [List.cons_append, applyHMOps]
    exact ih _

theorem getActorOp_state (cfg : HamtConfig) (s : StateTreeM) (id : Nat) :
    ∃ la, (getActorOp cfg s id).2 =
      { s with actorCache := applyHMOps la s.actorCache } := by
  simp only [getActorOp, HistoryMap.getOrTryInsertWith]
  cases hlk : lookupA id s.actorCache.map with
  | some e => exact ⟨[], rfl⟩
  | none =>
    cases hg : Hamt.get cfg s.hamt (addrKey id) with
    | error e => exact ⟨[], rfl⟩
    | ok v =>
      refine ⟨[.tryIns id { dirty := false, actor := v }], ?_⟩
      simp only [applyHMOps, applyHMOp, hlk]

theorem maybeMutateActorOp_state (cfg : HamtConfig) (s : StateTreeM)
    (id : Nat) (f : ActorStateM → Except ExecErrM ActorStateM)
    (h : s.isReadOnly = false) :
    ∃ la, (maybeMutateActorOp cfg s id f).2 =
      { s with actorCache := applyHMOps la s.actorCache } := by
  obtain ⟨la1, hla1⟩ := getActorOp_state cfg s id
  unfold maybeMutateActorOp
  rcases hga : getActorOp cfg s id with ⟨r1, st1⟩
  rw [hga] at hla1
  simp only at hla1
  subst hla1
  have hro : ({ s with actorCache := applyHMOps la1 s.actorCache } :
      StateTreeM).isReadOnly = false := h
  match r1 with
  | .error e => exact ⟨la1, rfl⟩
  | .ok none => exact ⟨la1, rfl⟩
  | .ok (some a) =>
    simp only
    match f a with
    | .error e => exact ⟨la1, rfl⟩
    | .ok a2 =>
      refine ⟨la1 ++ [.ins id { dirty := true, actor := some a2 }], ?_⟩
      rw [applyHMOps_append]
      simp [setActorOp, assertWritable, hro, applyHMOps, applyHMOp]

theorem mutateActorOp_snd (cfg : HamtConfig) (s : StateTreeM) (id : Nat)
    (f : ActorStateM → Except ExecErrM ActorStateM) :
    (mutateActorOp cfg s id f).2 = (maybeMutateActorOp cfg s id f).2 := by
  unfold mutateActorOp
  rcases hmm : maybeMutateActorOp cfg s id f with ⟨r, st1⟩
  match r with
  | .error e => rfl
  | .ok true => rfl
  | .ok false => rfl

theorem registerNewAddressOp_state (cfg : HamtConfig) (s : StateTreeM)
    (addr : AddressM) (h : s.isReadOnly = false) :
    ∃ la log2, (registerNewAddressOp cfg s addr).2 =
      { s with actorCache := applyHMOps la s.actorCache,
               storeLog := log2 } := by
  obtain ⟨la1, hla1⟩ := getActorOp_state cfg s INIT_ACTOR_ID
  unfold registerNewAddressOp initActorLoad
  rcases hga : getActorOp cfg s INIT_ACTOR_ID with ⟨r1, st1⟩
  rw [hga] at hla1
  simp only at hla1
  subst hla1
  have hro : ∀ lg, ({ s with
      actorCache := applyHMOps la1 s.actorCache,
      storeLog := lg } : StateTreeM).isReadOnly = false := fun _ => h
  match r1 with
  | .error e => exact ⟨la1, s.storeLog, rfl⟩
  | .ok none => exact ⟨la1, s.storeLog, rfl⟩
  | .ok (some a) =>
    simp only
    match a.state with
    | .raw n => exact ⟨la1, s.storeLog, rfl⟩
    | .stateInfo => exact ⟨la1, s.storeLog, rfl⟩
    | .initState si =>
      simp only [InitStateM.mapAddressToNewId]
      refine ⟨la1 ++ [.ins INIT_ACTOR_ID
        ⟨true, some { a with
          state :=
            CidM.initState ⟨insertA addr si.nextId si.addressMap,
              si.nextId + 1⟩ }⟩],
        s.storeLog ++
          [.initMapBlock (insertA addr si.nextId si.addressMap),
           .initStateBlock ⟨insertA addr si.nextId si.addressMap,
             si.nextId + 1⟩], ?_⟩
      rw [applyHMOps_append]
      simp [setActorOp, assertWritable, hro, applyHMOps, applyHMOp]

theorem applyMutOp_shape (cfg : HamtConfig) (s : StateTreeM) (op : MutOp)
    (h : s.isReadOnly = false) :
    ∃ la lr log2, applyMutOp cfg s op =
      { s with
        actorCache := applyHMOps la s.actorCache,
        resolveCache := applyHMOps lr s.resolveCache,
        storeLog := log2 } := by
  match op with
  | .setA id a =>
    refine ⟨[.ins id ⟨true, some a⟩], [], s.storeLog, ?_⟩
    simp [applyMutOp, setActorOp, assertWritable, h, applyHMOps, applyHMOp]
  | .delA id =>
    refine ⟨[.ins id ⟨true, none⟩], [], s.storeLog, ?_⟩
    simp [applyMutOp, deleteActorOp, assertWritable, h, applyHMOps, applyHMOp]
  | .reg addr =>
    obtain ⟨la, log2, heq⟩ := registerNewAddressOp_state cfg s addr h
    exact ⟨la, [], log2, heq⟩
  | .mut id f =>
    obtain ⟨la, heq⟩ := maybeMutateActorOp_state cfg s id f h
    refine ⟨la, [], s.storeLog, ?_⟩
    show (mutateActorOp cfg s id f).2 = _
    rw [mutateActorOp_snd, heq]
    rfl

theorem applyMutOps_shape (cfg : HamtConfig) :
    ∀ (ops : List MutOp) (s : StateTreeM), s.isReadOnly = false →
      ∃ la lr log2, applyMutOps cfg ops s =
        { s with
          actorCache := applyHMOps la s.actorCache,
          resolveCache := applyHMOps lr s.resolveCache,
          storeLog := log2 }
  | [], s, _ => ⟨[], [], s.storeLog, rfl⟩
  | op :: ops, s, h => by
    obtain ⟨la1, lr1, log1, h1⟩ := applyMutOp_shape cfg s op h
    have h2 : (applyMutOp cfg s op).isReadOnly = false := by
      rw [h1]; exact h
    obtain ⟨la2, lr2, log3, h3⟩ :=
      applyMutOps_shape cfg ops (applyMutOp cfg s op) h2
    refine ⟨la1 ++ la2, lr1 ++ lr2, log3, ?_⟩
    show applyMutOps cfg ops (applyMutOp cfg s op) = _
    rw [h3, h1, applyHMOps_append, applyHMOps_append]

theorem endTransactionOp_pop (st : StateTreeM) (layer : StateSnapLayer)
    (rest : List StateSnapLayer) (h : st.isReadOnly = false)
    (hl : st.layers = layer :: rest) :
    endTransactionOp st true =
      (.ok (), endFinishOp { st with
        layers := rest,
        actorCache := st.actorCache.rollback layer.actorCacheHeight,
        resolveCache := st.resolveCache.rollback layer.resolveCacheHeight }) := by
  unfold endTransactionOp
  rw [if_neg (by rw [h]; exact Bool.false_ne_true), hl]
  rfl

theorem endFinishOp_components (s : StateTreeM) :
    (endFinishOp s).actorCache.map = s.actorCache.map ∧
    (endFinishOp s).resolveCache.map = s.resolveCache.map ∧
    (endFinishOp s).hamt = s.hamt := by
  unfold endFinishOp
  split
  · exact ⟨rfl, rfl, rfl⟩
  · exact ⟨rfl, rfl, rfl⟩

theorem viewEq_of_components (cfg : HamtConfig) (st st2 : StateTreeM)
    (hA : st.actorCache.map = st2.actorCache.map)
    (hR : st.resolveCache.map = st2.resolveCache.map)
    (hH : st.hamt = st2.hamt) : viewEq cfg st st2 := by
  have hga : ∀ id, getActorView cfg st id = getActorView cfg st2 id := by
    intro id
    unfold getActorView
    rw [hA, hH]
  refine ⟨hga, ?_⟩
  intro a
  unfold lookupIdView
  cases a with
  | id n => rfl
  | key n => rw [hR, hga INIT_ACTOR_ID]

/-- C1: for every sequence of mutating operations (`set_actor`,
`delete_actor`, `register_new_address`, `mutate_actor`) performed between
`begin_transaction(false)` and the matching `end_transaction(true)` on a
writable tree, `end_transaction` succeeds, and the observable state of the
tree afterwards — the results of `get_actor` for every actor id and of
`lookup_id` for every address — equals the observable state immediately
before `begin_transaction(false)`. -/
theorem transaction_rollback_observable (cfg : HamtConfig)
    (st : StateTreeM) (ops : List MutOp) (h : st.isReadOnly = false) :
    (endTransactionOp (applyMutOps cfg ops (beginTransactionOp st false))
      true).1 = .ok () ∧
    viewEq cfg st
      (endTransactionOp (applyMutOps cfg ops (beginTransactionOp st false))
        true).2 := by
  have hbeg : beginTransactionOp st false =
      { st with layers :=
          (⟨st.actorCache.historyLen, st.resolveCache.historyLen⟩ :
            StateSnapLayer) :: st.layers } := by
    unfold beginTransactionOp
    rw [if_neg (by simp [h])]
  have hro1 : (beginTransactionOp st false).isReadOnly = false := by
    rw [hbeg]; exact h
  obtain ⟨la, lr, log2, hshape⟩ :=
    applyMutOps_shape cfg ops (beginTransactionOp st false) hro1
  have hac : (applyMutOps cfg ops (beginTransactionOp st false)).actorCache =
      applyHMOps la st.actorCache := by
    rw [hshape, hbeg]
  have hrc : (applyMutOps cfg ops (beginTransactionOp st false)).resolveCache =
      applyHMOps lr st.resolveCache := by
    rw [hshape, hbeg]
  have hh : (applyMutOps cfg ops (beginTransactionOp st false)).hamt =
      st.hamt := by
    rw [hshape, hbeg]
  have hro2 : (applyMutOps cfg ops (beginTransactionOp st false)).isReadOnly =
      false := by
    rw [hshape]; exact hro1
  have hl : (applyMutOps cfg ops (beginTransactionOp st false)).layers =
      (⟨st.actorCache.historyLen, st.resolveCache.historyLen⟩ :
        StateSnapLayer) :: st.layers := by
    rw [hshape, hbeg]
  have hend := endTransactionOp_pop
    (applyMutOps cfg ops (beginTransactionOp st false))
    ⟨st.actorCache.historyLen, st.resolveCache.historyLen⟩ st.layers hro2 hl
  rw [hend]
  refine ⟨rfl, ?_⟩
  refine viewEq_of_components cfg st _ ?_ ?_ ?_
  · rw [(endFinishOp_components _).1]
    show st.actorCache.map =
      ((applyMutOps cfg ops (beginTransactionOp st false)).actorCache.rollback
        st.actorCache.historyLen).map
    rw [hac, rollback_applyHMOps]
  · rw [(endFinishOp_components _).2.1]
    show st.resolveCache.map =
      ((applyMutOps cfg ops
          (beginTransactionOp st false)).resolveCache.rollback
        st.resolveCache.historyLen).map
    rw [hrc, rollback_applyHMOps]
  · rw [(endFinishOp_components _).2.2]
    exact hh.symm

/-- Witness for C1 on a fresh writable tree and a concrete transaction. -/
theorem transaction_rollback_observable_witness :
    (endTransactionOp (applyMutOps cfgW opsMW (beginTransactionOp stW0 false))
      true).1 = .ok () ∧
    viewEq cfgW stW0
      (endTransactionOp (applyMutOps cfgW opsMW (beginTransactionOp stW0 false))
        true).2 :=
  transaction_rollback_observable cfgW stW0 opsMW rfl

/-- C4 (amended): when the state tree is read-only (`read_only_layers > 0`
implies `in_transaction()`), `flush` fails with the fatal
"cannot flush while inside of a transaction" error — a fatal error, not
the recoverable `ReadOnly` syscall error: `flush` is guarded by the
`in_transaction` check, not by `assert_writable`. -/
theorem flush_readonly_fatal (cfg : HamtConfig) (st : StateTreeM)
    (h : st.isReadOnly = true) :
    flushOp cfg st =
      (.error (.fatal "cannot flush while inside of a transaction"), st) ∧
    (ExecErrM.fatal
      "cannot flush while inside of a transaction").recoverable = false := by
  have h0 : st.readOnlyLayers ≠ 0 := by
    simp [StateTreeM.isReadOnly] at h
    omega
  have hin : st.inTransaction = true := by
    simp [StateTreeM.inTransaction, h0]
  refine ⟨?_, rfl⟩
  unfold flushOp
  rw [if_pos hin]

/-- Witness for C4's amended statement on a fresh tree inside a read-only
frame. -/
theorem flush_readonly_fatal_witness :
    flushOp cfgW (beginTransactionOp stW0 true) =
      (.error (.fatal "cannot flush while inside of a transaction"),
       beginTransactionOp stW0 true) ∧
    (ExecErrM.fatal
      "cannot flush while inside of a transaction").recoverable = false :=
  flush_readonly_fatal cfgW (beginTransactionOp stW0 true) rfl

/-- Counterexample to C4 as stated: a fresh tree inside a
`begin_transaction(true)` frame is read-only, yet `flush` returns the
fatal transaction error, not a recoverable syscall error — so `flush` is
not among the operations surfacing the recoverable `ReadOnly` error. -/
theorem flush_readonly_not_syscall :
    (beginTransactionOp stW0 true).isReadOnly = true ∧
    (flushOp cfgW (beginTransactionOp stW0 true)).1 =
      .error (.fatal "cannot flush while inside of a transaction") ∧
    ∀ en msg, (flushOp cfgW (beginTransactionOp stW0 true)).1 ≠
      .error (.syscall en msg) := by
  refine ⟨rfl, rfl, ?_⟩
  intro en msg hcontra
  rw [show (flushOp cfgW (beginTransactionOp stW0 true)).1 =
    .error (.fatal "cannot flush while inside of a transaction") from rfl]
    at hcontra
  exact absurd (Except.error.inj hcontra) (by simp)

/-- C5 (amended): the flush loop clears each processed entry's dirty flag
when the entry is processed, before (not after) its HAMT write: when every
write succeeds the output cache is the input with all dirty flags cleared,
and when a write fails the loop stops at the first failing dirty entry,
whose flag has already been cleared in the output, leaving the entries
after it untouched. -/
theorem flush_dirty_semantics (cfg : HamtConfig) :
    ∀ (l : List (Nat × ActorCacheEntry)) (hm : Hamt ActorStateM),
      ((flushLoop cfg l hm).2.2 = none →
        (flushLoop cfg l hm).1 = l.map flushEnt) ∧
      (∀ e, (flushLoop cfg l hm).2.2 = some e →
        ∃ l1 p l2 h1 he, l = l1 ++ p :: l2 ∧ p.2.dirty = true ∧
          hamtWriteEntry cfg h1 p.1 p.2.actor = .error he ∧
          (flushLoop cfg l hm).1 = l1.map flushEnt ++ flushEnt p :: l2) := by
  intro l
  induction l with
  | nil =>
    intro hm
    refine ⟨fun _ => rfl, fun e he => ?_⟩
    simp [flushLoop] at he
  | cons pr rest ih =>
    intro hm
    obtain ⟨id, ent⟩ := pr
    by_cases hd : ent.dirty = true
    · cases hw : hamtWriteEntry cfg hm id ent.actor with
      | error err =>
        have hfl : flushLoop cfg ((id, ent) :: rest) hm =
            ((id, { ent with dirty := false }) :: rest, hm,
             some (.fatal "failed to write actor to the state tree")) := by
          simp [flushLoop, hd, hw]
        constructor
        · intro hnone
          rw [hfl] at hnone
          simp at hnone
        · intro e he
          refine ⟨[], (id, ent), rest, hm, err, rfl, hd, hw, ?_⟩
          rw [hfl]
          simp [flushEnt]
      | ok h2 =>
        have hfl : flushLoop cfg ((id, ent) :: rest) hm =
            ((id, { ent with dirty := false }) :: (flushLoop cfg rest h2).1,
             (flushLoop cfg rest h2).2) := by
          simp [flushLoop, hd, hw]
        constructor
        · intro hnone
          rw [hfl] at hnone ⊢
          simp only at hnone
          simp only [List.map_cons, (ih h2).1 hnone, flushEnt]
        · intro e he
          rw [hfl] at he
          simp only at he
          obtain ⟨l1, p, l2, h1, herr, heq, hpd, hwf2, hout⟩ := (ih h2).2 e he
          refine ⟨(id, ent) :: l1, p, l2, h1, herr, by rw [heq, List.cons_append], hpd, hwf2, ?_⟩
          rw [hfl]
          simp only [List.map_cons, List.cons_append, hout, flushEnt]
    · have hd2 : ent.dirty = false := by
        revert hd
        cases ent.dirty <;> simp
      have hfl : flushLoop cfg ((id, ent) :: rest) hm =
          ((id, ent) :: (flushLoop cfg rest hm).1,
           (flushLoop cfg rest hm).2) := by
        simp [flushLoop, hd2]
      have hfe : flushEnt (id, ent) = (id, ent) := by
        obtain ⟨d, a⟩ := ent
        simp only at hd2
        subst hd2
        rfl
      constructor
      · intro hnone
        rw [hfl] at hnone ⊢
        simp only at hnone
        simp only [List.map_cons, (ih hm).1 hnone, hfe]
      · intro e he
        rw [hfl] at he
        simp only at he
        obtain ⟨l1, p, l2, h1, herr, heq, hpd, hwf2, hout⟩ := (ih hm).2 e he
        refine ⟨(id, ent) :: l1, p, l2, h1, herr, by rw [heq, List.cons_append], hpd, hwf2, ?_⟩
        rw [hfl]
        simp only [List.map_cons, List.cons_append, hout, hfe]

/-- Counterexample to C5 as stated: over `cfgP`, flushing `stP` writes
entry 1 successfully, the write for entry 2 fails with `MaxDepth`, flush
surfaces the fatal write error — and yet entry 2's dirty flag has been
cleared in the resulting cache (the flag is cleared before the write is
attempted, not after it succeeds). -/
theorem flush_dirty_cleared_despite_failure :
    hamtWriteEntry cfgP (Hamt.new cfgP) 1 (some actorW) = .ok hamtP1 ∧
    hamtWriteEntry cfgP hamtP1 2 (some actorB) = .error .maxDepth ∧
    (flushOp cfgP stP).1 =
      .error (.fatal "failed to write actor to the state tree") ∧
    lookupA 2 (flushOp cfgP stP).2.actorCache.map =
      some ⟨false, some actorB⟩ :=
  ⟨rfl, rfl, rfl, rfl⟩

theorem initActorLoad_snd (cfg : HamtConfig) (st : StateTreeM) :
    (initActorLoad cfg st).2 = (getActorOp cfg st INIT_ACTOR_ID).2 := by
  unfold initActorLoad
  rcases hga : getActorOp cfg st INIT_ACTOR_ID with ⟨r, st1⟩
  match r with
  | .error e => rfl
  | .ok none => rfl
  | .ok (some a) =>
    simp only
    match a.state with
    | .raw n => rfl
    | .stateInfo => rfl
    | .initState s2 => rfl

/-- C10 (amended): on a read-only tree whose init actor loads
successfully, `register_new_address` returns the recoverable `ReadOnly`
syscall error from the final `set_actor`, and the tree it leaves behind
has performed the block-store writes already (the updated init address map
and the re-serialised init-actor state), has an unchanged resolve cache,
HAMT, layers and version — but its actor cache may have changed: the
`get_actor` lookup inside the load caches a clean init-actor entry on a
miss. -/
theorem register_readonly_behavior (cfg : HamtConfig) (st : StateTreeM)
    (addr : AddressM) (s : InitStateM) (actor : ActorStateM)
    (hro : st.isReadOnly = true)
    (hload : (initActorLoad cfg st).1 = .ok (s, actor)) :
    ∃ la,
      (initActorLoad cfg st).2 =
        { st with actorCache := applyHMOps la st.actorCache } ∧
      registerNewAddressOp cfg st addr =
        (.error (.syscall .readOnly
          "cannot mutate state while in read-only mode"),
         { st with
           actorCache := applyHMOps la st.actorCache,
           storeLog := st.storeLog ++
             [.initMapBlock (insertA addr s.nextId s.addressMap),
              .initStateBlock ⟨insertA addr s.nextId s.addressMap,
                s.nextId + 1⟩] }) := by
  obtain ⟨la, hla⟩ := getActorOp_state cfg st INIT_ACTOR_ID
  have hsnd := initActorLoad_snd cfg st
  rw [hla] at hsnd
  refine ⟨la, hsnd, ?_⟩
  unfold registerNewAddressOp
  rcases hil : initActorLoad cfg st with ⟨r1, st1⟩
  rw [hil] at hload hsnd
  simp only at hload hsnd
  subst hsnd
  subst hload
  have hro1 : 0 < st.readOnlyLayers := by
    simpa [StateTreeM.isReadOnly] using hro
  simp [setActorOp, assertWritable, StateTreeM.isReadOnly, hro1,
    InitStateM.mapAddressToNewId]

/-- Witness for C10's amended statement on the concrete read-only tree
`stI`. -/
theorem register_readonly_behavior_witness :
    ∃ la,
      (initActorLoad cfgW stI).2 =
        { stI with actorCache := applyHMOps la stI.actorCache } ∧
      registerNewAddressOp cfgW stI (.key 9) =
        (.error (.syscall .readOnly
          "cannot mutate state while in read-only mode"),
         { stI with
           actorCache := applyHMOps la stI.actorCache,
           storeLog := stI.storeLog ++
             [.initMapBlock (insertA (.key 9) (7 : Nat) []),
              .initStateBlock ⟨insertA (.key 9) (7 : Nat) [], 8⟩] }) :=
  register_readonly_behavior cfgW stI (.key 9) ⟨[], 7⟩ initActorW rfl rfl

/-- Counterexample to C10 as stated: on the read-only tree `stI`,
`register_new_address` does return the recoverable `ReadOnly` error and
does perform the block-store writes first — but it does not leave the
actor cache unchanged: the init-actor lookup inside the call caches a
clean entry, growing the cache's map and undo history. -/
theorem register_readonly_changes_cache :
    stI.isReadOnly = true ∧
    (registerNewAddressOp cfgW stI (.key 9)).1 =
      .error (.syscall .readOnly
        "cannot mutate state while in read-only mode") ∧
    stI.actorCache.historyLen = 0 ∧
    (registerNewAddressOp cfgW stI (.key 9)).2.actorCache.historyLen = 1 ∧
    lookupA INIT_ACTOR_ID
      (registerNewAddressOp cfgW stI (.key 9)).2.actorCache.map =
      some ⟨false, some initActorW⟩ ∧
    (registerNewAddressOp cfgW stI (.key 9)).2.storeLog =
      [.initMapBlock [(.key 9, 7)], .initStateBlock ⟨[(.key 9, 7)], 8⟩] :=
  ⟨rfl, rfl, rfl, rfl, rfl, rfl⟩
